import Mathlib

/-!
Verification of the TradingAgents report storage subsystem
(`tradingagents/storage/`): a shallow embedding in Lean 4 of the content
validation and sanitization pipeline (`agent_validation.py`), the session
identifier codec (`session_utils.py`), the report storage and retrieval
services (`report_storage.py`, `report_retrieval.py`), the retry executor
(`connection_utils.py`) and the migration runner (`migrations.py`),
together with theorems settling the specification's claims about them.

Python strings are modelled as `List Char` (a Python `str` is a sequence
of Unicode code points, as is a Lean `Char` list).  `len(s.encode("utf-8"))`
is modelled by `utf8Len`.  Where the source uses the regex classes `\s` and
`\d` or `str.strip`/`str.upper`, the embedding uses the ASCII portion of
those classes (the code only ever meets ASCII whitespace and digits in the
strings it manufactures, and none of the claims hinges on the non-ASCII
part of the classes).
-/

/-- Number of bytes of the UTF-8 encoding of one code point. -/
def csize (c : Char) : Nat :=
  if c.toNat < 0x80 then 1
  else if c.toNat < 0x800 then 2
  else if c.toNat < 0x10000 then 3
  else 4

/-- `len(s.encode("utf-8"))`: UTF-8 byte length of a string. -/
def utf8Len (l : List Char) : Nat := (l.map csize).sum

/-- The NUL code point `"\x00"`. -/
def nulChar : Char := Char.ofNat 0

/-- `MAX_REPORT_SIZE = 1024 * 1024` (agent_validation.py line 15). -/
def MAX_REPORT_SIZE : Nat := 1024 * 1024

/-- `MIN_REPORT_SIZE = 10` (agent_validation.py line 18). -/
def MIN_REPORT_SIZE : Nat := 10

/-- ASCII whitespace, the portion of Python's `\s` / `str.strip` class the
code can meet. -/
def isPySpace (c : Char) : Bool :=
  c == ' ' || c == '\t' || c == '\n' || c == '\x0d' || c == '\x0b' || c == '\x0c'

/-- Python `str.strip()`: drop whitespace from both ends. -/
def pyStrip (l : List Char) : List Char :=
  ((l.dropWhile isPySpace).reverse.dropWhile isPySpace).reverse

/-- `content.replace("\x00", "")` (agent_validation.py line 111). -/
def removeNulls (l : List Char) : List Char := l.filter (fun c => !(c == nulChar))

/-- One step of `html.escape(content, quote=False)`: `&` becomes `&amp;`,
`<` becomes `&lt;`, `>` becomes `&gt;`, everything else is kept. -/
def escChar (c : Char) : List Char :=
  if c == '&' then "&amp;".data
  else if c == '<' then "&lt;".data
  else if c == '>' then "&gt;".data
  else [c]

/-- `html.escape(content, quote=False)` (agent_validation.py line 114). -/
def htmlEscape (l : List Char) : List Char := l.flatMap escChar

/-- The suffix of `l` strictly after its last newline (all of `l` when it has
no newline). -/
def afterLastNewline (l : List Char) : List Char :=
  (l.reverse.takeWhile (fun c => !(c == '\n'))).reverse

/-- What `re.sub(r"\n\s*\n\s*\n", "\n\n", _)` does to one maximal whitespace
run: a run holding three or more newlines has the segment from its first to
its last newline replaced by two newlines (the match must start and end on a
newline, and the greedy `\s*` stretches the match across the whole run);
a run with fewer newlines is left alone. -/
def flushRun (run : List Char) : List Char :=
  if 3 ≤ run.count '\n' then
    run.takeWhile (fun c => !(c == '\n')) ++ '\n' :: '\n' :: afterLastNewline run
  else run

/-- Scanner for `re.sub(r"\n\s*\n\s*\n", "\n\n", _)`: accumulate the current
maximal whitespace run in `runAcc` and flush it at each non-whitespace
character and at the end. -/
def collapseNLAux (runAcc : List Char) : List Char → List Char
  | [] => flushRun runAcc
  | c :: rest =>
    if isPySpace c then collapseNLAux (runAcc ++ [c]) rest
    else flushRun runAcc ++ c :: collapseNLAux [] rest

/-- `re.sub(r"\n\s*\n\s*\n", "\n\n", content)` (agent_validation.py
line 117). -/
def collapseNewlines (l : List Char) : List Char := collapseNLAux [] l

/-- Is the character a space or a tab (the class `[ \t]`)? -/
def isSpaceTab (c : Char) : Bool := c == ' ' || c == '\t'

/-- Scanner for `re.sub(r"[ \t]+", " ", _)`: `inRun` records whether the
previous character was part of a space/tab run already replaced. -/
def normSpacesAux (inRun : Bool) : List Char → List Char
  | [] => []
  | c :: rest =>
    if isSpaceTab c then
      if inRun then normSpacesAux true rest else ' ' :: normSpacesAux true rest
    else c :: normSpacesAux false rest

/-- `re.sub(r"[ \t]+", " ", content)` (agent_validation.py line 118). -/
def normalizeSpaces (l : List Char) : List Char := normSpacesAux false l

/-- `ReportContentValidator._sanitize_content` (agent_validation.py
lines 99-123): remove NUL bytes, escape HTML entities, cap consecutive
newlines at two, collapse space/tab runs, trim. -/
def sanitizeContent (content : List Char) : List Char :=
  pyStrip (normalizeSpaces (collapseNewlines (htmlEscape (removeNulls content))))

/-- `ReportContentValidator.validate_report_content` (agent_validation.py
lines 67-97): `none` models raising `AgentValidationError`.  The `not
isinstance(content, str)` branch is unrepresentable in the typed embedding. -/
def validateReportContent (content : List Char) : Option (List Char) :=
  if pyStrip content = [] then none
  else if content.length < MIN_REPORT_SIZE then none
  else if MAX_REPORT_SIZE < utf8Len content then none
  else some (sanitizeContent content)

/-- `content.split("\n")`: split on every occurrence of the separator;
`"".split(c)` is `[""]`. -/
def splitOnChar (sep : Char) : List Char → List (List Char)
  | [] => [[]]
  | c :: rest =>
    match splitOnChar sep rest with
    | [] => [[]]
    | h :: t => if c == sep then [] :: h :: t else (c :: h) :: t

/-- `"\n".join(lines)`. -/
def joinLines : List (List Char) → List Char
  | [] => []
  | [l] => l
  | l :: l' :: ls => l ++ '\n' :: joinLines (l' :: ls)

/-- The line `f"... (repeated {n} more times)"` (agent_validation.py
line 240). -/
def natStrAux : Nat → Nat → List Char
  | 0, _ => []
  | _ + 1, 0 => []
  | fuel + 1, n + 1 =>
    natStrAux fuel ((n + 1) / 10) ++ [Char.ofNat (48 + (n + 1) % 10)]

/-- Python `str(n)` for a natural number. -/
def natStr (n : Nat) : List Char := if n = 0 then ['0'] else natStrAux (n + 1) n

/-- The marker `f"... (repeated {n} more times)"`. -/
def markerLine (n : Nat) : List Char :=
  "... (repeated ".data ++ natStr n ++ " more times)".data

/-- `"\n\n[CONTENT TRUNCATED - Report exceeded maximum size]"`
(agent_validation.py line 250). -/
def truncNote : List Char :=
  "\n\n[CONTENT TRUNCATED - Report exceeded maximum size]".data

/-- The `for line in lines` loop of `LargeContentHandler.compress_content`
(agent_validation.py lines 233-243): `prev` is `prev_line` (`none` models
Python's initial `None`), `rc` is `repeat_count`, `acc` is
`compressed_lines`. -/
def compressLoop : List (List Char) → List (List Char) → Option (List Char) → Nat →
    List (List Char)
  | [], acc, _, _ => acc
  | line :: rest, acc, prev, rc =>
    if some (pyStrip line) = prev then
      if rc + 1 ≤ 2 then compressLoop rest (acc ++ [line]) prev (rc + 1)
      else compressLoop rest acc prev (rc + 1)
    else
      compressLoop rest
        ((if 2 < rc then acc ++ [markerLine (rc - 2)] else acc) ++ [line])
        (some (pyStrip line)) 0

/-- `LargeContentHandler.compress_content` (agent_validation.py
lines 213-252). -/
def compressContent (content : List Char) : List Char :=
  if utf8Len content ≤ MAX_REPORT_SIZE then content
  else
    let compressed := joinLines (compressLoop (splitOnChar '\n' content) [] none 0)
    if MAX_REPORT_SIZE < utf8Len compressed then
      compressed.take (MAX_REPORT_SIZE - 100) ++ truncNote
    else compressed

/-- The `for line in content.split("\n")` loop of
`LargeContentHandler.split_large_content` (agent_validation.py
lines 272-287), including the final flush of `current_chunk`. -/
def splitChunksGo (maxSize : Nat) : List (List Char) → List (List Char) →
    List Char → List (List Char)
  | [], chunks, current => if current = [] then chunks else chunks ++ [current]
  | line :: rest, chunks, current =>
    let test := if current = [] then line else current ++ '\n' :: line
    if maxSize < utf8Len test then
      if current = [] then
        splitChunksGo maxSize rest (chunks ++ [line.take maxSize]) (line.drop maxSize)
      else splitChunksGo maxSize rest (chunks ++ [current]) line
    else splitChunksGo maxSize rest chunks test

/-- `LargeContentHandler.split_large_content` (agent_validation.py
lines 254-288).  Note `line[:max_size]` slices by characters, not bytes. -/
def splitLargeContent (content : List Char) (maxSize : Nat) : List (List Char) :=
  if utf8Len content ≤ maxSize then [content]
  else splitChunksGo maxSize (splitOnChar '\n' content) [] []

/-! ## Session identifier codec (`session_utils.py`) -/

/-- ASCII decimal digit (code points 48-57), the portion of `\d` the code
can meet. -/
def isAsciiDigit (c : Char) : Bool := 48 ≤ c.toNat && c.toNat ≤ 57

/-- The class `[A-Z0-9]` (code points 65-90 and 48-57). -/
def isUpperAlnum (c : Char) : Bool :=
  (65 ≤ c.toNat && c.toNat ≤ 90) || (48 ≤ c.toNat && c.toNat ≤ 57)

/-- The exact-shape part of `^\d{4}-\d{2}-\d{2}$`. -/
def dateCore : List Char → Bool
  | [y1, y2, y3, y4, s1, m1, m2, s2, d1, d2] =>
    isAsciiDigit y1 && isAsciiDigit y2 && isAsciiDigit y3 && isAsciiDigit y4 &&
    s1 == '-' && isAsciiDigit m1 && isAsciiDigit m2 && s2 == '-' &&
    isAsciiDigit d1 && isAsciiDigit d2
  | _ => false

/-- The exact-shape part of `^[A-Z0-9]+$`. -/
def tickerCore (l : List Char) : Bool := !l.isEmpty && l.all isUpperAlnum

/-- `re.match(r"^...$", s)` as a whole-string match: Python's `$` also
matches just before one final newline, so `core s` or `core` on `s` less a
trailing newline. -/
def reFullMatch (core : List Char → Bool) (l : List Char) : Bool :=
  core l || (l.getLast? == some '\n' && core l.dropLast)

/-- `re.sub(r"[^A-Z0-9]", "", ticker.upper())` (session_utils.py line 42);
`str.upper` is modelled on its ASCII portion. -/
def cleanTicker (ticker : List Char) : List Char :=
  (ticker.map Char.toUpper).filter isUpperAlnum

/-- `generate_session_id` (session_utils.py lines 14-47); `now` stands for
`int(time.time())` and `none` models raising `ValueError`. -/
def generateSessionId (ticker analysisDate : List Char) (now : Nat) :
    Option (List Char) :=
  if ticker = [] then none
  else if analysisDate = [] then none
  else if !reFullMatch dateCore analysisDate then none
  else if cleanTicker ticker = [] then none
  else some (cleanTicker ticker ++ '_' :: analysisDate ++ '_' :: natStr now)

/-- Value of a list of ASCII digit characters, most significant first. -/
def digitsVal (l : List Char) : Nat :=
  l.foldl (fun acc c => acc * 10 + (c.toNat - 48)) 0

/-- Python `int(s)` on the sign-and-digits core: `none` models raising
`ValueError`.  (The underscore digit-separator rule of `int` cannot arise
here: the argument is a piece of a `split("_")`.) -/
def pyInt (l : List Char) : Option Int :=
  match pyStrip l with
  | [] => none
  | c :: ds =>
    if c == '+' then
      if ds ≠ [] ∧ ds.all isAsciiDigit then some (Int.ofNat (digitsVal ds)) else none
    else if c == '-' then
      if ds ≠ [] ∧ ds.all isAsciiDigit then some (-(Int.ofNat (digitsVal ds))) else none
    else
      if (c :: ds).all isAsciiDigit then some (Int.ofNat (digitsVal (c :: ds)))
      else none

/-- `parse_session_id` (session_utils.py lines 50-86): split on `_` into
exactly three parts, check the ticker and date shapes, parse the timestamp;
`none` models raising `ValueError`. -/
def parseSessionId (sessionId : List Char) :
    Option (List Char × List Char × Int) :=
  if sessionId = [] then none
  else
    match splitOnChar '_' sessionId with
    | [ticker, analysisDate, tsStr] =>
      if !reFullMatch tickerCore ticker then none
      else if !reFullMatch dateCore analysisDate then none
      else (pyInt tsStr).map (fun ts => (ticker, analysisDate, ts))
    | _ => none

/-- `validate_session_id` (session_utils.py lines 89-103). -/
def validateSessionId (sessionId : List Char) : Bool :=
  (parseSessionId sessionId).isSome

/-! ## Agent type mapping (`schema.py`) -/

/-- `AGENT_TYPE_MAPPING` (schema.py lines 71-84), in insertion order. -/
def agentTypeMapping : List (String × String) :=
  [("Market Analyst", "market_analyst_report"),
   ("News Analyst", "news_analyst_report"),
   ("Fundamentals Analyst", "fundamentals_analyst_report"),
   ("Social Analyst", "social_analyst_report"),
   ("Bull Researcher", "bull_researcher_report"),
   ("Bear Researcher", "bear_researcher_report"),
   ("Research Manager", "research_manager_report"),
   ("Trader", "trader_report"),
   ("Risky Analyst", "risky_analyst_report"),
   ("Neutral Analyst", "neutral_analyst_report"),
   ("Safe Analyst", "safe_analyst_report"),
   ("Portfolio Manager", "portfolio_manager_report")]

/-- `AgentReportSchema.is_valid_agent_type` (schema.py lines 158-161). -/
def isValidAgentType (agentType : String) : Bool :=
  (agentTypeMapping.lookup agentType).isSome

/-- `AgentReportSchema.get_agent_column` (schema.py lines 122-138): `none`
models raising `ValueError`. -/
def getAgentColumn (agentType : String) : Option String :=
  agentTypeMapping.lookup agentType

/-! ## Report storage service, write path (`report_storage.py`) -/

/-- Result of `save_agent_report_sync`: `saved` carries the content actually
written to the report column; the other constructors model the raised
exceptions. -/
inductive SaveResult where
  | saved (stored : List Char)
  | invalidSessionId
  | invalidAgent
  | invalidContent
  | sessionNotFound
  deriving DecidableEq, Repr

/-- `ReportStorageService.save_agent_report_sync` (report_storage.py
lines 211-258): validate the session id, map the agent type to its column,
validate and sanitize the content, compress when the sanitized content
exceeds 1 MiB, then update the row (`dbHas` tells whether the `UPDATE ...
RETURNING id` finds the session row). -/
def saveAgentReportSync (dbHas : List Char → Bool) (sessionId : List Char)
    (agentType : String) (content : List Char) : SaveResult :=
  if !validateSessionId sessionId then .invalidSessionId
  else
    match getAgentColumn agentType with
    | none => .invalidAgent
    | some _ =>
      match validateReportContent content with
      | none => .invalidContent
      | some sanitized =>
        let stored :=
          if 1024 * 1024 < utf8Len sanitized then compressContent sanitized
          else sanitized
        if dbHas sessionId then .saved stored else .sessionNotFound

/-- `AgentReportSchema.validate_recommendation` (schema.py lines 179-181). -/
def isAllowedRecommendation (r : List Char) : Bool :=
  r == "BUY".data || r == "SELL".data || r == "HOLD".data

/-- `ReportContentValidator.validate_recommendation` (agent_validation.py
lines 126-147): trim, uppercase, check membership. -/
def validateRecommendation (recommendation : List Char) : Option (List Char) :=
  let normalized := (pyStrip recommendation).map Char.toUpper
  if isAllowedRecommendation normalized then some normalized else none

/-- `ReportStorageService.save_final_analysis_sync` (report_storage.py
lines 321-375): same pipeline as `save_agent_report_sync` for the analysis
text, plus recommendation validation. -/
def saveFinalAnalysisSync (dbHas : List Char → Bool) (sessionId : List Char)
    (analysis recommendation : List Char) : SaveResult :=
  if !validateSessionId sessionId then .invalidSessionId
  else
    match validateReportContent analysis with
    | none => .invalidContent
    | some sanitized =>
      match validateRecommendation recommendation with
      | none => .invalidContent
      | some _ =>
        let stored :=
          if 1024 * 1024 < utf8Len sanitized then compressContent sanitized
          else sanitized
        if dbHas sessionId then .saved stored else .sessionNotFound

/-- `ReportStorageService.session_exists` (report_storage.py lines 419-442):
`q` is the outcome of the `SELECT 1` lookup — `.ok b` when the query ran and
found (`b = true`) or did not find the row, `.error` when the connection or
the query raised.  The `except Exception` handler turns every failure into
`false`. -/
def storageSessionExists (sessionId : List Char) (q : Except Unit Bool) : Bool :=
  if !validateSessionId sessionId then false
  else match q with
    | .ok b => b
    | .error _ => false

/-! ## Report retrieval service, read path (`report_retrieval.py`) -/

/-- One `agent_reports` row as the retrieval service reads it: `reports`
maps a report column name to its value (`none` is SQL NULL). -/
structure SessionRow where
  reports : String → Option (List Char)
  finalAnalysis : Option (List Char)
  recommendation : Option (List Char)

/-- The table keyed by `session_id` (UNIQUE): at most one row per id. -/
def Db : Type := List Char → Option SessionRow

/-- Result of `ReportRetrievalService.get_agent_report`: `found`/`noReport`
are the `return`s, the rest model the raised exceptions. -/
inductive GetReportResult where
  | found (content : List Char)
  | noReport
  | invalidSessionError
  | invalidAgentError
  | sessionNotFoundError
  deriving DecidableEq, Repr

/-- `ReportRetrievalService.get_agent_report` (report_retrieval.py
lines 250-317): reject a malformed session id, reject an unknown agent
type, raise `SessionNotFoundError` when the row is absent, and return the
column value only when it is truthy (non-NULL and non-empty). -/
def getAgentReport (db : Db) (sessionId : List Char) (agentType : String) :
    GetReportResult :=
  if !validateSessionId sessionId then .invalidSessionError
  else if !isValidAgentType agentType then .invalidAgentError
  else
    match getAgentColumn agentType with
    | none => .invalidAgentError
    | some col =>
      match db sessionId with
      | none => .sessionNotFoundError
      | some row =>
        match row.reports col with
        | some content => if content ≠ [] then .found content else .noReport
        | none => .noReport

/-- Errors of the retrieval service (`ReportRetrievalError` and its
subclasses). -/
inductive RetrievalErr where
  | invalidSession
  | sessionNotFound
  | databaseError
  deriving DecidableEq, Repr

/-- `ReportRetrievalService.session_exists` (report_retrieval.py
lines 209-248): `false` on a malformed id, but a database failure in the
lookup (`q = .error`) is re-raised as `ReportRetrievalError`. -/
def retrievalSessionExists (sessionId : List Char) (q : Except Unit Bool) :
    Except RetrievalErr Bool :=
  if !validateSessionId sessionId then .ok false
  else match q with
    | .ok b => .ok b
    | .error _ => .error .databaseError

/-- `ReportRetrievalService.get_available_reports` (report_retrieval.py
lines 506-559): the agent types whose column `is not None` (an empty string
counts as available). -/
def getAvailableReports (db : Db) (sessionId : List Char) :
    Except RetrievalErr (List String) :=
  if !validateSessionId sessionId then .error .invalidSession
  else
    match db sessionId with
    | none => .error .sessionNotFound
    | some row =>
      .ok (agentTypeMapping.filterMap
        (fun p => if (row.reports p.2).isSome then some p.1 else none))

/-- The session payload `get_session_reports` assembles (identification and
timestamp fields elided; they are copied through unchanged). -/
structure SessionReportsResponse where
  agentReports : List (String × List Char)
  finalAnalysis : Option (List Char)
  recommendation : Option (List Char)

/-- `ReportRetrievalService.get_session_reports` (report_retrieval.py
lines 319-383): the role-keyed mapping keeps a column only when
`session_data.get(column_name)` is truthy — non-NULL and non-empty. -/
def getSessionReports (db : Db) (sessionId : List Char) :
    Except RetrievalErr SessionReportsResponse :=
  if !validateSessionId sessionId then .error .invalidSession
  else
    match db sessionId with
    | none => .error .sessionNotFound
    | some row =>
      .ok
        { agentReports :=
            agentTypeMapping.filterMap
              (fun p =>
                match row.reports p.2 with
                | some c => if c ≠ [] then some (p.1, c) else none
                | none => none)
          finalAnalysis := row.finalAnalysis
          recommendation := row.recommendation }

/-! ## Retry executor (`connection_utils.py`) -/

/-- What one invocation of the wrapped operation does: return a value, raise
a retryable error (`OperationalError`/`DatabaseError`/`InterfaceError`), or
raise anything else. -/
inductive AttemptOutcome (α ε : Type) where
  | success (a : α)
  | retryable (e : ε)
  | fatal (e : ε)

/-- How a retried operation ends: a value; `ConnectionError` wrapping the
last retryable failure after the budget is spent; `ConnectionError` wrapping
a non-retryable failure (`ConnectionFactory._retry_operation` only); or the
non-retryable failure re-raised as itself (`with_db_retry` only). -/
inductive RetryOutcome (α ε : Type) where
  | success (a : α)
  | exhausted (last : ε)
  | fatalWrapped (e : ε)
  | fatalRaised (e : ε)

/-- Observable behaviour of one retried run: its outcome, how many times the
operation was invoked, and the sleeps between attempts in order. -/
structure RetryTrace (α ε : Type) where
  outcome : RetryOutcome α ε
  invocations : Nat
  sleeps : List ℚ

/-- The `for attempt in range(max_retries + 1)` loop shared by
`with_db_retry` (connection_utils.py lines 205-238) and
`ConnectionFactory._retry_operation` (lines 93-128): `op k` is what the
`attempt = k` invocation does, `jitter k` its `random.uniform(0, 1)` draw,
`rem` the attempts still allowed after this one (`maxRetries - attempt`).
The two sources differ only on a non-retryable error — `with_db_retry`
re-raises it, `_retry_operation` wraps it in `ConnectionError` — which
`wrapFatal` selects. -/
def retryGo (base : ℚ) (op : Nat → AttemptOutcome α ε) (jitter : Nat → ℚ)
    (wrapFatal : Bool) : Nat → Nat → RetryTrace α ε
  | attempt, rem =>
    match op attempt, rem with
    | .success a, _ => ⟨.success a, 1, []⟩
    | .fatal e, _ => ⟨if wrapFatal then .fatalWrapped e else .fatalRaised e, 1, []⟩
    | .retryable e, 0 => ⟨.exhausted e, 1, []⟩
    | .retryable _, r + 1 =>
      let t := retryGo base op jitter wrapFatal (attempt + 1) r
      ⟨t.outcome, t.invocations + 1,
        min (base * 2 ^ attempt + jitter attempt) 30 :: t.sleeps⟩

/-- `with_db_retry(max_retries, base_delay)` applied to an operation
(connection_utils.py lines 192-241). -/
def runWithDbRetry (maxRetries : Nat) (base : ℚ) (op : Nat → AttemptOutcome α ε)
    (jitter : Nat → ℚ) : RetryTrace α ε :=
  retryGo base op jitter false 0 maxRetries

/-- `ConnectionFactory._retry_operation` (connection_utils.py lines 79-128)
with its fixed `max_retries = 3`, `base_delay = 1.0`, `max_delay = 30.0`. -/
def runRetryOperation (op : Nat → AttemptOutcome α ε) (jitter : Nat → ℚ) :
    RetryTrace α ε :=
  retryGo 1 op jitter true 0 3

/-! ## Migration runner (`migrations.py`, `schema.py`)

SQL execution is external to the embedding and always succeeds here (the
claims under study are about the checksum bookkeeping, not about SQL
failures); `sha256` is modelled by an arbitrary hash parameter `h`, since
the runner only ever compares checksums for equality. -/

/-- `AGENT_REPORTS_TABLE_SQL` (schema.py lines 14-43). -/
def AGENT_REPORTS_TABLE_SQL : String :=
  "\nCREATE TABLE IF NOT EXISTS agent_reports (\n" ++
  "    id UUID PRIMARY KEY DEFAULT gen_random_uuid(),\n" ++
  "    session_id VARCHAR(255) UNIQUE NOT NULL,\n" ++
  "    ticker VARCHAR(10) NOT NULL,\n" ++
  "    analysis_date DATE NOT NULL,\n" ++
  "    created_at TIMESTAMP WITH TIME ZONE DEFAULT CURRENT_TIMESTAMP,\n" ++
  "    updated_at TIMESTAMP WITH TIME ZONE DEFAULT CURRENT_TIMESTAMP,\n" ++
  "    market_analyst_report TEXT,\n" ++
  "    news_analyst_report TEXT,\n" ++
  "    fundamentals_analyst_report TEXT,\n" ++
  "    social_analyst_report TEXT,\n" ++
  "    bull_researcher_report TEXT,\n" ++
  "    bear_researcher_report TEXT,\n" ++
  "    research_manager_report TEXT,\n" ++
  "    trader_report TEXT,\n" ++
  "    risky_analyst_report TEXT,\n" ++
  "    neutral_analyst_report TEXT,\n" ++
  "    safe_analyst_report TEXT,\n" ++
  "    portfolio_manager_report TEXT,\n" ++
  "    final_analysis TEXT,\n" ++
  "    recommendation VARCHAR(10) CHECK (recommendation IN ('BUY', 'SELL', 'HOLD'))\n" ++
  ");\n"

/-- `INDEXES_SQL` (schema.py lines 46-52). -/
def INDEXES_SQL : List String :=
  ["CREATE INDEX IF NOT EXISTS idx_agent_reports_session_id ON agent_reports(session_id);",
   "CREATE INDEX IF NOT EXISTS idx_agent_reports_ticker_date ON agent_reports(ticker, analysis_date);",
   "CREATE INDEX IF NOT EXISTS idx_agent_reports_ticker ON agent_reports(ticker);",
   "CREATE INDEX IF NOT EXISTS idx_agent_reports_date ON agent_reports(analysis_date);",
   "CREATE INDEX IF NOT EXISTS idx_agent_reports_created_at ON agent_reports(created_at);"]

/-- `UPDATE_TIMESTAMP_TRIGGER_SQL` (schema.py lines 55-68). -/
def UPDATE_TIMESTAMP_TRIGGER_SQL : String :=
  "\nCREATE OR REPLACE FUNCTION update_updated_at_column()\n" ++
  "RETURNS TRIGGER AS $$\nBEGIN\n    NEW.updated_at = CURRENT_TIMESTAMP;\n" ++
  "    RETURN NEW;\nEND;\n$$ language 'plpgsql';\n\n" ++
  "CREATE TRIGGER update_agent_reports_updated_at\n" ++
  "    BEFORE UPDATE ON agent_reports\n    FOR EACH ROW\n" ++
  "    EXECUTE FUNCTION update_updated_at_column();\n"

/-- `COMPLETE_SCHEMA_SQL` (schema.py lines 185-194). -/
def COMPLETE_SCHEMA_SQL : String :=
  "\n-- Create agent_reports table\n" ++ AGENT_REPORTS_TABLE_SQL ++
  "\n\n-- Create indexes\n" ++ String.intercalate "\n" INDEXES_SQL ++
  "\n\n-- Create update timestamp trigger\n" ++ UPDATE_TIMESTAMP_TRIGGER_SQL ++ "\n"

/-- `MigrationRunner._get_migration_history_table_sql` (migrations.py
lines 70-83). -/
def migrationHistoryTableSql : String :=
  "\nCREATE TABLE IF NOT EXISTS migration_history (\n" ++
  "    id SERIAL PRIMARY KEY,\n    version VARCHAR(10) NOT NULL UNIQUE,\n" ++
  "    name VARCHAR(255) NOT NULL,\n    checksum VARCHAR(64) NOT NULL,\n" ++
  "    applied_at TIMESTAMP WITH TIME ZONE DEFAULT CURRENT_TIMESTAMP,\n" ++
  "    applied_by VARCHAR(255) DEFAULT CURRENT_USER\n);\n\n" ++
  "CREATE INDEX IF NOT EXISTS idx_migration_history_version ON migration_history(version);\n"

/-- A `Migration` (migrations.py lines 22-35) without its derived checksum. -/
structure Migration where
  version : String
  name : String
  upSql : String
  downSql : String

/-- `Migration._calculate_checksum` (migrations.py lines 32-35):
`sha256(version + name + up_sql + down_sql)`, with the hash abstracted as
`h`. -/
def migChecksum (h : String → String) (m : Migration) : String :=
  h (m.version ++ m.name ++ m.upSql ++ m.downSql)

/-- Migration 001 of `MigrationRunner._get_migrations` (migrations.py
lines 50-55). -/
def mig001 : Migration :=
  { version := "001", name := "create_agent_reports_table",
    upSql := COMPLETE_SCHEMA_SQL,
    downSql := "DROP TABLE IF EXISTS agent_reports CASCADE;" }

/-- Migration 002 of `MigrationRunner._get_migrations` (migrations.py
lines 56-61): the migration-history bootstrap migration. -/
def mig002 : Migration :=
  { version := "002", name := "create_migration_history_table",
    upSql := migrationHistoryTableSql,
    downSql := "DROP TABLE IF EXISTS migration_history CASCADE;" }

/-- Migration 003 of `MigrationRunner._get_migrations` (migrations.py
lines 62-67). -/
def mig003 : Migration :=
  { version := "003", name := "remove_final_decision_column",
    upSql := "ALTER TABLE agent_reports DROP COLUMN IF EXISTS final_decision;",
    downSql := "ALTER TABLE agent_reports ADD COLUMN final_decision TEXT;" }

/-- `MigrationRunner._get_migrations` (migrations.py lines 47-68). -/
def migrationsList : List Migration := [mig001, mig002, mig003]

/-- The `migration_history` table: version to recorded checksum (`none` =
no row, i.e. the migration was never applied). -/
def MigHistory : Type := String → Option String

/-- `MigrationRunner._migration_exists` (migrations.py lines 91-102). -/
def migrationExists (hist : MigHistory) (version : String) : Bool :=
  (hist version).isSome

/-- `MigrationRunner._record_migration` (migrations.py lines 104-114): the
`ON CONFLICT` upsert stores the current checksum. -/
def recordMigration (h : String → String) (hist : MigHistory) (m : Migration) :
    MigHistory :=
  fun v => if v = m.version then some (migChecksum h m) else hist v

/-- `MigrationRunner._validate_migration_integrity` (migrations.py
lines 124-138): the stored checksum must equal the current in-code one;
a migration that was never applied passes. -/
def validateMigrationIntegrity (h : String → String) (hist : MigHistory)
    (m : Migration) : Bool :=
  match hist m.version with
  | some stored => stored == migChecksum h m
  | none => true

/-- `if target_version and migration.version > target_version: break`
(migrations.py line 171): an empty target string is falsy in Python. -/
def targetBreak (target : Option String) (version : String) : Bool :=
  match target with
  | some t => !(t == "") && t < version
  | none => false

/-- The `for migration in self.migrations` loop of
`MigrationRunner.migrate_up` (migrations.py lines 166-196): skip the
history-table migration, stop early past the target version, refuse an
applied migration whose integrity check fails, apply (record) migrations
not yet in the history.  The `Bool` is `migrate_up`'s return value. -/
def migrateUpLoop (h : String → String) :
    List Migration → MigHistory → Option String → Bool × MigHistory
  | [], hist, _ => (true, hist)
  | m :: rest, hist, target =>
    if m.name == "create_migration_history_table" then migrateUpLoop h rest hist target
    else if targetBreak target m.version then (true, hist)
    else if migrationExists hist m.version then
      if !validateMigrationIntegrity h hist m then (false, hist)
      else migrateUpLoop h rest hist target
    else migrateUpLoop h rest (recordMigration h hist m) target

/-- `MigrationRunner.migrate_up` (migrations.py lines 140-203): first make
sure the migration-history table's own migration is recorded (no integrity
check there), then run the loop. -/
def migrateUp (h : String → String) (hist : MigHistory) (target : Option String) :
    Bool × MigHistory :=
  let hist1 :=
    match migrationsList.find? (fun m => m.name == "create_migration_history_table") with
    | some mh => if migrationExists hist mh.version then hist else recordMigration h hist mh
    | none => hist
  migrateUpLoop h migrationsList hist1 target

/-- One entry of `MigrationRunner.get_migration_status`. -/
structure MigStatus where
  version : String
  name : String
  applied : Bool
  integrityOk : Bool
  checksum : String
  deriving DecidableEq, Repr

/-- `MigrationRunner.get_migration_status` (migrations.py lines 257-287). -/
def getMigrationStatus (h : String → String) (hist : MigHistory) : List MigStatus :=
  migrationsList.map (fun m =>
    { version := m.version, name := m.name,
      applied := migrationExists hist m.version,
      integrityOk :=
        if migrationExists hist m.version then validateMigrationIntegrity h hist m
        else true,
      checksum := migChecksum h m })

/-! ## Specification-side description of `compress_content` (for C7)

`collapseRuns` states the run-collapsing behaviour the way the (amended)
specification describes it — by maximal runs of lines equal after
stripping — to be compared with the loop translated from the code. -/

/-- Collapse each maximal run of consecutive lines with equal stripped text
to its first three lines, followed by a `(repeated N-3 more times)` marker
when the run has `N ≥ 4` lines and another line follows it (a run ending
the input gets no marker). -/
def collapseRuns : List (List Char) → List (List Char)
  | [] => []
  | f :: t =>
    (f :: t.takeWhile (fun l => pyStrip l == pyStrip f)).take 3 ++
      (if t.dropWhile (fun l => pyStrip l == pyStrip f) ≠ [] ∧
          3 < (t.takeWhile (fun l => pyStrip l == pyStrip f)).length + 1 then
        [markerLine ((t.takeWhile (fun l => pyStrip l == pyStrip f)).length + 1 - 3)]
      else []) ++
      collapseRuns (t.dropWhile (fun l => pyStrip l == pyStrip f))
termination_by l => l.length
decreasing_by
  simp only [List.length_cons]
  exact Nat.lt_succ_of_le (List.dropWhile_sublist _).length_le

/-- `compress_content` as the amended specification describes it: identity
within the 1 MiB bound, otherwise collapse runs per `collapseRuns` and
truncate (by character count) with the trailing notice when still over the
bound. -/
def specCompressContent (content : List Char) : List Char :=
  if utf8Len content ≤ MAX_REPORT_SIZE then content
  else
    let compressed := joinLines (collapseRuns (splitOnChar '\n' content))
    if MAX_REPORT_SIZE < utf8Len compressed then
      compressed.take (MAX_REPORT_SIZE - 100) ++ truncNote
    else compressed


/-! ## Basic lemmas about the embedding's building blocks -/

theorem utf8Len_cons (c : Char) (l : List Char) :
    utf8Len (c :: l) = csize c + utf8Len l := by
  simp [utf8Len]

theorem utf8Len_append (a b : List Char) :
    utf8Len (a ++ b) = utf8Len a + utf8Len b := by
  simp [utf8Len]

theorem utf8Len_replicate (n : Nat) (c : Char) :
    utf8Len (List.replicate n c) = n * csize c := by
  simp [utf8Len, List.map_replicate, List.sum_replicate, smul_eq_mul]

theorem csize_pos (c : Char) : 1 ≤ csize c := by
  unfold csize; split_ifs <;> omega

theorem csize_le_four (c : Char) : csize c ≤ 4 := by
  unfold csize; split_ifs <;> omega

theorem utf8Len_le_four_mul (l : List Char) : utf8Len l ≤ 4 * l.length := by
  induction l with
  | nil => simp [utf8Len]
  | cons c l ih =>
    rw [utf8Len_cons]
    have := csize_le_four c
    simp only [List.length_cons]
    omega

theorem length_le_utf8Len (l : List Char) : l.length ≤ utf8Len l := by
  induction l with
  | nil => simp [utf8Len]
  | cons c l ih =>
    rw [utf8Len_cons]
    have := csize_pos c
    simp only [List.length_cons]
    omega

theorem splitOnChar_ne_nil (sep : Char) (l : List Char) : splitOnChar sep l ≠ [] := by
  induction l with
  | nil => simp [splitOnChar]
  | cons c rest ih =>
    simp only [splitOnChar]
    obtain ⟨h1, t1, e⟩ := List.exists_cons_of_ne_nil ih
    rw [e]
    dsimp only
    split <;> simp

theorem splitOnChar_no_sep {sep : Char} {l : List Char}
    (h : ∀ c ∈ l, ¬ c = sep) : splitOnChar sep l = [l] := by
  induction l with
  | nil => rfl
  | cons c rest ih =>
    have hrest : splitOnChar sep rest = [rest] :=
      ih (fun d hd => h d (List.mem_cons_of_mem _ hd))
    have hc : (c == sep) = false := by
      simp only [beq_eq_false_iff_ne, ne_eq]
      exact h c (List.mem_cons_self c rest)
    simp [splitOnChar, hrest, hc]

theorem splitOnChar_append {sep : Char} {a : List Char} (b : List Char)
    (h : ∀ c ∈ a, ¬ c = sep) :
    splitOnChar sep (a ++ sep :: b) = a :: splitOnChar sep b := by
  induction a with
  | nil =>
    obtain ⟨h1, t1, e⟩ := List.exists_cons_of_ne_nil (splitOnChar_ne_nil sep b)
    simp [splitOnChar, e]
  | cons c a' ih =>
    have ha' := ih (fun d hd => h d (List.mem_cons_of_mem _ hd))
    have hc : (c == sep) = false := by
      simp only [beq_eq_false_iff_ne, ne_eq]
      exact h c (List.mem_cons_self c a')
    simp [splitOnChar, ha', hc]

theorem mem_of_mem_splitOnChar {sep : Char} {l piece : List Char} {c : Char}
    (hp : piece ∈ splitOnChar sep l) (hc : c ∈ piece) : c ∈ l := by
  induction l generalizing piece with
  | nil =>
    simp [splitOnChar] at hp
    subst hp
    simp at hc
  | cons d rest ih =>
    obtain ⟨h1, t1, e⟩ := List.exists_cons_of_ne_nil (splitOnChar_ne_nil sep rest)
    simp only [splitOnChar, e] at hp
    split at hp
    · rcases List.mem_cons.mp hp with rfl | hp'
      · simp at hc
      · exact List.mem_cons_of_mem _ (ih (e ▸ hp') hc)
    · rcases List.mem_cons.mp hp with rfl | hp'
      · rcases List.mem_cons.mp hc with rfl | hc'
        · exact List.mem_cons_self _ _
        · exact List.mem_cons_of_mem _ (ih (e ▸ List.mem_cons_self h1 t1) hc')
      · exact List.mem_cons_of_mem _ (ih (e ▸ List.mem_cons_of_mem _ hp') hc)

theorem dropWhile_eq_self_of_none {p : Char → Bool} {l : List Char}
    (h : ∀ c ∈ l, p c = false) : l.dropWhile p = l := by
  cases l with
  | nil => rfl
  | cons c rest => simp [List.dropWhile, h c (List.mem_cons_self c rest)]

theorem pyStrip_eq_self {l : List Char}
    (h : ∀ c ∈ l, isPySpace c = false) : pyStrip l = l := by
  unfold pyStrip
  rw [dropWhile_eq_self_of_none h,
    dropWhile_eq_self_of_none (fun c hc => h c (List.mem_reverse.mp hc)),
    List.reverse_reverse]

theorem mem_pyStrip {l : List Char} {c : Char} (h : c ∈ pyStrip l) : c ∈ l := by
  unfold pyStrip at h
  rw [List.mem_reverse] at h
  have h2 := (List.dropWhile_sublist (l := (l.dropWhile isPySpace).reverse)
    (p := isPySpace)).mem h
  rw [List.mem_reverse] at h2
  exact (List.dropWhile_sublist (l := l) (p := isPySpace)).mem h2

theorem digitChar_spec (m : Nat) (hm : m < 10) :
    isAsciiDigit (Char.ofNat (48 + m)) = true ∧ (Char.ofNat (48 + m)).toNat = 48 + m := by
  interval_cases m <;> exact ⟨by decide, by decide⟩

theorem natStrAux_all_digits (fuel : Nat) :
    ∀ n, ∀ c ∈ natStrAux fuel n, isAsciiDigit c = true := by
  induction fuel with
  | zero => intro n c hc; simp [natStrAux] at hc
  | succ f ih =>
    intro n c hc
    cases n with
    | zero => simp [natStrAux] at hc
    | succ m =>
      simp only [natStrAux, List.mem_append, List.mem_singleton] at hc
      rcases hc with hc | rfl
      · exact ih _ c hc
      · exact (digitChar_spec _ (Nat.mod_lt _ (by omega))).1

theorem natStr_all_digits (n : Nat) : ∀ c ∈ natStr n, isAsciiDigit c = true := by
  unfold natStr
  split
  · intro c hc; simp at hc; subst hc; decide
  · exact natStrAux_all_digits _ n

theorem natStr_ne_nil (n : Nat) : natStr n ≠ [] := by
  unfold natStr
  split
  · simp
  · cases n with
    | zero => simp_all
    | succ m => simp [natStrAux]

theorem foldl_natStrAux (fuel : Nat) :
    ∀ n acc, n < fuel →
      (natStrAux fuel n).foldl (fun a c => a * 10 + (c.toNat - 48)) acc =
        acc * 10 ^ (natStrAux fuel n).length + n := by
  induction fuel with
  | zero => intro n acc h; omega
  | succ f ih =>
    intro n acc h
    cases n with
    | zero => simp [natStrAux]
    | succ m =>
      have hdiv : (m + 1) / 10 < f := by
        have := Nat.div_lt_self (show 0 < m + 1 by omega) (show 1 < 10 by omega)
        omega
      have hmod : (m + 1) % 10 < 10 := Nat.mod_lt _ (by omega)
      simp only [natStrAux, List.foldl_append, List.foldl_cons, List.foldl_nil,
        List.length_append, List.length_singleton]
      rw [ih _ acc hdiv, (digitChar_spec _ hmod).2]
      have hdm : 10 * ((m + 1) / 10) + (m + 1) % 10 = m + 1 := Nat.div_add_mod _ 10
      rw [pow_succ]
      ring_nf
      omega

theorem digitsVal_natStr (n : Nat) : digitsVal (natStr n) = n := by
  unfold natStr
  split
  · subst n; decide
  · simpa [digitsVal] using foldl_natStrAux (n + 1) n 0 (Nat.lt_succ_self n)

theorem digit_not_space {c : Char} (h : isAsciiDigit c = true) :
    isPySpace c = false := by
  by_contra hsp
  rw [Bool.not_eq_false] at hsp
  simp only [isPySpace, Bool.or_eq_true, beq_iff_eq] at hsp
  rcases hsp with ((((rfl | rfl) | rfl) | rfl) | rfl) | rfl <;>
    exact absurd h (by decide)

theorem digit_ne_of_code {c : Char} (h : isAsciiDigit c = true) {d : Char}
    (hd : d.toNat < 48 ∨ 57 < d.toNat) : ¬ c = d := by
  rintro rfl
  simp only [isAsciiDigit, Bool.and_eq_true, decide_eq_true_eq] at h
  omega

theorem alnum_ne_underscore {c : Char} (h : isUpperAlnum c = true) : ¬ c = '_' := by
  rintro rfl
  simp only [isUpperAlnum, Bool.or_eq_true, Bool.and_eq_true, decide_eq_true_eq] at h
  revert h
  decide

theorem pyInt_natStr (n : Nat) : pyInt (natStr n) = some (Int.ofNat n) := by
  have hdig := natStr_all_digits n
  have hstrip : pyStrip (natStr n) = natStr n :=
    pyStrip_eq_self (fun c hc => digit_not_space (hdig c hc))
  unfold pyInt
  rw [hstrip]
  obtain ⟨c, ds, e⟩ := List.exists_cons_of_ne_nil (natStr_ne_nil n)
  rw [e]
  have hc : isAsciiDigit c = true := hdig c (e ▸ List.mem_cons_self c ds)
  have hplus : (c == '+') = false := by
    simp only [beq_eq_false_iff_ne, ne_eq]
    exact digit_ne_of_code hc (by decide)
  have hminus : (c == '-') = false := by
    simp only [beq_eq_false_iff_ne, ne_eq]
    exact digit_ne_of_code hc (by decide)
  have hall : (c :: ds).all isAsciiDigit = true := by
    rw [List.all_eq_true]
    intro d hd
    exact hdig d (e ▸ hd)
  rw [← e]
  simp only [e, hplus, hminus, Bool.false_eq_true, if_false, hall, and_true, if_pos]
  rw [← e, digitsVal_natStr]

theorem dateCore_chars {d : List Char} (h : dateCore d = true) :
    ∀ c ∈ d, isAsciiDigit c = true ∨ c = '-' := by
  match d with
  | [] => simp [dateCore] at h
  | [_] | [_,_] | [_,_,_] | [_,_,_,_] | [_,_,_,_,_] | [_,_,_,_,_,_]
  | [_,_,_,_,_,_,_] | [_,_,_,_,_,_,_,_] | [_,_,_,_,_,_,_,_,_] =>
    simp [dateCore] at h
  | c1 :: c2 :: c3 :: c4 :: c5 :: c6 :: c7 :: c8 :: c9 :: c10 :: rest =>
    cases rest with
    | cons x xs => simp [dateCore] at h
    | nil =>
      simp only [dateCore, Bool.and_eq_true, beq_iff_eq] at h
      obtain ⟨⟨⟨⟨⟨⟨⟨⟨⟨h1, h2⟩, h3⟩, h4⟩, h5⟩, h6⟩, h7⟩, h8⟩, h9⟩, h10⟩
        := h
      intro c hc
      simp only [List.mem_cons, List.not_mem_nil, or_false] at hc
      rcases hc with rfl | rfl | rfl | rfl | rfl | rfl | rfl | rfl | rfl | rfl <;>
        simp_all

theorem cleanTicker_alnum (ticker : List Char) :
    ∀ c ∈ cleanTicker ticker, isUpperAlnum c = true := by
  intro c hc
  exact (List.mem_filter.mp hc).2

theorem reFullMatch_dateCore_chars {d : List Char}
    (h : reFullMatch dateCore d = true) :
    ∀ c ∈ d, isAsciiDigit c = true ∨ c = '-' ∨ c = '\n' := by
  simp only [reFullMatch, Bool.or_eq_true, Bool.and_eq_true, beq_iff_eq] at h
  rcases h with h | ⟨hlast, hcore⟩
  · intro c hc
    rcases dateCore_chars h c hc with h' | h'
    · exact Or.inl h'
    · exact Or.inr (Or.inl h')
  · intro c hc
    have hne : d ≠ [] := by rintro rfl; simp at hlast
    have hd : d.dropLast ++ [d.getLast hne] = d := List.dropLast_append_getLast hne
    rw [← hd] at hc
    rcases List.mem_append.mp hc with hc' | hc'
    · rcases dateCore_chars hcore c hc' with h' | h'
      · exact Or.inl h'
      · exact Or.inr (Or.inl h')
    · simp only [List.mem_singleton] at hc'
      subst hc'
      right; right
      have := List.getLast?_eq_getLast d hne
      rw [this] at hlast
      exact Option.some.inj hlast

/-- C5 helper: the characters of a date accepted by `generate` are never an
underscore. -/
theorem date_no_underscore {d : List Char} (h : reFullMatch dateCore d = true) :
    ∀ c ∈ d, ¬ c = '_' := by
  intro c hc
  rcases reFullMatch_dateCore_chars h c hc with h' | rfl | rfl
  · exact digit_ne_of_code h' (by decide)
  · decide
  · decide

/-- C5: for every ticker, date and timestamp on which `generate_session_id`
succeeds, `parse_session_id` of the produced identifier succeeds and returns
exactly the cleaned ticker, the same date string and the minted timestamp,
and `validate_session_id` accepts the identifier. -/
theorem c5_session_id_round_trip (ticker analysisDate : List Char) (now : Nat)
    (sid : List Char) (h : generateSessionId ticker analysisDate now = some sid) :
    parseSessionId sid = some (cleanTicker ticker, analysisDate, (now : Int)) ∧
      validateSessionId sid = true := by
  unfold generateSessionId at h
  split_ifs at h with h1 h2 h3 h4
  have hdate : reFullMatch dateCore analysisDate = true := by
    revert h3; cases reFullMatch dateCore analysisDate <;> simp
  have hsid : sid = cleanTicker ticker ++ '_' :: (analysisDate ++ '_' :: natStr now) := by
    have e := (Option.some.inj h).symm
    simpa [List.cons_append] using e
  have hct_us : ∀ c ∈ cleanTicker ticker, ¬ c = '_' := fun c hc =>
    alnum_ne_underscore (cleanTicker_alnum ticker c hc)
  have hts_digit := natStr_all_digits now
  have hts_us : ∀ c ∈ natStr now, ¬ c = '_' := fun c hc =>
    digit_ne_of_code (hts_digit c hc) (by decide)
  have hsplit : splitOnChar '_' sid =
      [cleanTicker ticker, analysisDate, natStr now] := by
    rw [hsid, splitOnChar_append _ hct_us,
      splitOnChar_append _ (date_no_underscore hdate), splitOnChar_no_sep hts_us]
  have hsid_ne : ¬ sid = [] := by
    rw [hsid]
    simp [h4]
  have hticker : reFullMatch tickerCore (cleanTicker ticker) = true := by
    simp only [reFullMatch, Bool.or_eq_true]
    left
    simp only [tickerCore, Bool.and_eq_true, List.all_eq_true]
    refine ⟨?_, fun c hc => cleanTicker_alnum ticker c hc⟩
    simpa using h4
  have hparse : parseSessionId sid =
      some (cleanTicker ticker, analysisDate, (now : Int)) := by
    unfold parseSessionId
    rw [if_neg hsid_ne, hsplit]
    simp only [hticker, hdate, Bool.not_true, Bool.false_eq_true, if_false,
      pyInt_natStr]
    rfl
  exact ⟨hparse, by simp [validateSessionId, hparse]⟩

theorem c5_round_trip_witness :
    parseSessionId "AAPL_2025-01-03_1700000000".data =
      some (cleanTicker " aapl! ".data, "2025-01-03".data, (1700000000 : Int)) ∧
    validateSessionId "AAPL_2025-01-03_1700000000".data = true :=
  c5_session_id_round_trip " aapl! ".data "2025-01-03".data 1700000000
    "AAPL_2025-01-03_1700000000".data (by decide)

/-- C4: `validate_report_content` raises exactly when the content is empty
after trimming, shorter than 10 characters, or over 1 MiB of UTF-8; a
9-character content is always rejected, a 10-character non-blank content is
accepted, and a content of 1 MiB + 1 byte handed to `save_agent_report` is
rejected (validation runs before compression ever could). -/
theorem c4_validate_content_boundaries :
    (∀ content : List Char,
      validateReportContent content = none ↔
        (pyStrip content = [] ∨ content.length < MIN_REPORT_SIZE ∨
          MAX_REPORT_SIZE < utf8Len content)) ∧
    (∀ content : List Char, content.length = 9 →
      validateReportContent content = none) ∧
    (∀ content : List Char, content.length = 10 → ¬ pyStrip content = [] →
      validateReportContent content = some (sanitizeContent content)) ∧
    (∀ (dbHas : List Char → Bool) (sessionId : List Char) (agentType : String)
      (content stored : List Char), utf8Len content = MAX_REPORT_SIZE + 1 →
      ¬ saveAgentReportSync dbHas sessionId agentType content =
        SaveResult.saved stored) := by
  have hiff : ∀ content : List Char,
      validateReportContent content = none ↔
        (pyStrip content = [] ∨ content.length < MIN_REPORT_SIZE ∨
          MAX_REPORT_SIZE < utf8Len content) := by
    intro content
    unfold validateReportContent
    split_ifs with ha hb hc <;> simp_all
  refine ⟨hiff, ?_, ?_, ?_⟩
  · intro content h9
    rw [hiff]
    right; left
    simp [MIN_REPORT_SIZE, h9]
  · intro content h10 hstrip
    have hb : ¬ content.length < MIN_REPORT_SIZE := by simp [MIN_REPORT_SIZE, h10]
    have hc : ¬ MAX_REPORT_SIZE < utf8Len content := by
      have h4 := utf8Len_le_four_mul content
      rw [h10] at h4
      simp only [MAX_REPORT_SIZE]
      omega
    simp [validateReportContent, hstrip, hb, hc]
  · intro dbHas sessionId agentType content stored hlen
    have hv : validateReportContent content = none := by
      rw [hiff]
      right; right
      omega
    unfold saveAgentReportSync
    split
    · simp
    · rcases hcol : getAgentColumn agentType with _ | col <;> simp [hcol, hv]

theorem c4_boundaries_witness :
    validateReportContent (List.replicate 9 'a') = none ∧
    validateReportContent (List.replicate 10 'a') =
      some (sanitizeContent (List.replicate 10 'a')) ∧
    ¬ saveAgentReportSync (fun _ => true) "AAPL_2025-01-03_1700000000".data
        "Market Analyst" (List.replicate (MAX_REPORT_SIZE + 1) 'a') =
      SaveResult.saved [] :=
  ⟨c4_validate_content_boundaries.2.1 _ (by simp),
   c4_validate_content_boundaries.2.2.1 _ (by simp) (by decide),
   c4_validate_content_boundaries.2.2.2 _ _ _ _ []
     (by rw [utf8Len_replicate, (by decide : csize 'a' = 1), Nat.mul_one])⟩

/-- C2: for a well-formed session id and a recognized agent type,
`get_agent_report` returns `null` when the session row exists but the column
is NULL, raises `SessionNotFoundError` when the row is absent, and the two
outcomes are distinct. -/
theorem c2_null_column_vs_missing_session (db : Db) (sessionId : List Char)
    (agentType : String) (hsid : validateSessionId sessionId = true)
    (hagent : isValidAgentType agentType = true) :
    (db sessionId = none →
      getAgentReport db sessionId agentType = GetReportResult.sessionNotFoundError) ∧
    (∀ (row : SessionRow) (col : String), db sessionId = some row →
      getAgentColumn agentType = some col → row.reports col = none →
      getAgentReport db sessionId agentType = GetReportResult.noReport) ∧
    GetReportResult.sessionNotFoundError ≠ GetReportResult.noReport := by
  obtain ⟨col0, hcol0⟩ : ∃ c, getAgentColumn agentType = some c := by
    unfold isValidAgentType at hagent
    exact Option.isSome_iff_exists.mp hagent
  refine ⟨?_, ?_, by simp⟩
  · intro hdb
    unfold getAgentReport
    simp [hsid, hagent, hcol0, hdb]
  · intro row col hdb hcol hnull
    rw [hcol0] at hcol
    obtain rfl := Option.some.inj hcol
    unfold getAgentReport
    simp [hsid, hagent, hcol0, hdb, hnull]

/-- A one-row database for the witnesses: the session `demoSid` exists and
every report column of it is NULL. -/
def demoSid : List Char := "AAPL_2025-01-03_1700000000".data

/-- The row of `demoDb`: all report columns NULL. -/
def emptyRow : SessionRow :=
  { reports := fun _ => none, finalAnalysis := none, recommendation := none }

/-- A database holding exactly the session `demoSid`, with all columns NULL. -/
def demoDb : Db := fun sid => if sid = demoSid then some emptyRow else none

theorem c2_distinct_witness :
    getAgentReport demoDb "MSFT_2025-01-03_1700000000".data "Market Analyst" =
      GetReportResult.sessionNotFoundError ∧
    getAgentReport demoDb demoSid "Market Analyst" = GetReportResult.noReport :=
  ⟨(c2_null_column_vs_missing_session demoDb "MSFT_2025-01-03_1700000000".data
      "Market Analyst" (by decide) (by decide)).1
      (by simp only [demoDb]; rw [if_neg (by decide)]),
   (c2_null_column_vs_missing_session demoDb demoSid "Market Analyst"
      (by decide) (by decide)).2.1 emptyRow "market_analyst_report"
      (by simp [demoDb]) rfl rfl⟩

/-- C9 (amended): the Storage Service's `session_exists` never raises — it
returns `false` on a malformed id or on any lookup failure and reports
exactly the query's answer otherwise — while the Retrieval Service's
`session_exists` returns `false` on a malformed id but re-raises a lookup
failure as `ReportRetrievalError` instead of returning `false`. -/
theorem c9_session_exists_error_behaviour (sessionId : List Char)
    (q : Except Unit Bool) :
    (storageSessionExists sessionId q = true ↔
      (validateSessionId sessionId = true ∧ q = Except.ok true)) ∧
    (validateSessionId sessionId = false →
      retrievalSessionExists sessionId q = Except.ok false) ∧
    (∀ b, validateSessionId sessionId = true → q = Except.ok b →
      retrievalSessionExists sessionId q = Except.ok b) ∧
    (∀ e, validateSessionId sessionId = true → q = Except.error e →
      retrievalSessionExists sessionId q = Except.error RetrievalErr.databaseError) := by
  refine ⟨?_, ?_, ?_, ?_⟩
  · unfold storageSessionExists
    cases hv : validateSessionId sessionId <;> cases q <;> simp
  · intro hv
    unfold retrievalSessionExists
    simp [hv]
  · rintro b hv rfl
    unfold retrievalSessionExists
    simp [hv]
  · rintro e hv rfl
    unfold retrievalSessionExists
    simp [hv]

theorem c9_behaviour_witness :
    storageSessionExists demoSid (Except.error ()) = false ∧
    retrievalSessionExists demoSid (Except.error ()) =
      Except.error RetrievalErr.databaseError := by
  constructor
  · rw [← Bool.not_eq_true]
    intro htrue
    have h :=
      ((c9_session_exists_error_behaviour demoSid (Except.error ())).1.mp htrue).2
    exact absurd h (by simp)
  · exact (c9_session_exists_error_behaviour demoSid (Except.error ())).2.2.2 ()
      (by decide) rfl

/-- C9 (counterexample): the claim says `sessionExists` in the Retrieval
Service never raises and returns `false` on any lookup failure; but on a
database failure for a well-formed session id it raises
`ReportRetrievalError` instead. -/
theorem c9_counterexample :
    ¬ retrievalSessionExists demoSid (Except.error ()) = Except.ok false ∧
    retrievalSessionExists demoSid (Except.error ()) =
      Except.error RetrievalErr.databaseError := by
  have h : retrievalSessionExists demoSid (Except.error ()) =
      Except.error RetrievalErr.databaseError := by
    unfold retrievalSessionExists
    rw [if_neg (by decide)]
  exact ⟨by rw [h]; simp, h⟩

/-- List.lookup membership: a successful lookup pairs the key with a value
present in the association list. -/
theorem lookup_mem {α β : Type} [BEq α] [LawfulBEq α] {ps : List (α × β)} {a : α}
    {b : β} (h : ps.lookup a = some b) : (a, b) ∈ ps := by
  induction ps with
  | nil => simp [List.lookup] at h
  | cons p rest ih =>
    obtain ⟨k, v⟩ := p
    rw [List.lookup] at h
    cases hbe : a == k with
    | true =>
      rw [hbe] at h
      obtain rfl := Option.some.inj h
      obtain rfl : a = k := by simpa using hbe
      exact List.mem_cons_self _ _
    | false =>
      rw [hbe] at h
      exact List.mem_cons_of_mem _ (ih h)

/-- In an association list with no duplicate keys, any member pair whose key
is `a` carries the value `lookup a` finds. -/
theorem lookup_eq_of_mem_nodup {α β : Type} [BEq α] [LawfulBEq α]
    {ps : List (α × β)} (hnd : (ps.map Prod.fst).Nodup) {p : α × β}
    (hp : p ∈ ps) : ps.lookup p.1 = some p.2 := by
  induction ps with
  | nil => simp at hp
  | cons q rest ih =>
    obtain ⟨k, v⟩ := q
    rw [List.map_cons, List.nodup_cons] at hnd
    rcases List.mem_cons.mp hp with rfl | hp'
    · simp [List.lookup]
    · rw [List.lookup]
      have hne : (p.1 == k) = false := by
        simp only [beq_eq_false_iff_ne, ne_eq]
        intro he
        apply hnd.1
        have hm : p.1 ∈ List.map Prod.fst rest := List.mem_map_of_mem Prod.fst hp'
        rwa [he] at hm
      rw [hne]
      exact ih hnd.2 hp'

/-- The twelve report columns have pairwise distinct agent-type keys. -/
theorem agentTypeMapping_keys_nodup : (agentTypeMapping.map Prod.fst).Nodup := by
  decide

/-- C10: when an existing session's report column holds the empty string,
`get_available_reports` lists that agent (`is not None` test), while
`get_agent_report` returns `null` and `get_session_reports` omits the agent
from its mapping (truthiness tests): the three operations disagree about an
empty-string report. -/
theorem c10_empty_report_disagreement (db : Db) (sessionId : List Char)
    (agentType col : String) (row : SessionRow)
    (hsid : validateSessionId sessionId = true)
    (hcol : getAgentColumn agentType = some col)
    (hdb : db sessionId = some row) (hempty : row.reports col = some []) :
    (∃ l, getAvailableReports db sessionId = Except.ok l ∧ agentType ∈ l) ∧
    getAgentReport db sessionId agentType = GetReportResult.noReport ∧
    (∃ resp, getSessionReports db sessionId = Except.ok resp ∧
      ¬ agentType ∈ resp.agentReports.map Prod.fst) := by
  have hlk : agentTypeMapping.lookup agentType = some col := hcol
  have hagent : isValidAgentType agentType = true := by
    unfold isValidAgentType
    rw [hlk]
    rfl
  have hmem : (agentType, col) ∈ agentTypeMapping := lookup_mem hlk
  have havail : getAvailableReports db sessionId =
      Except.ok (agentTypeMapping.filterMap
        (fun p => if (row.reports p.2).isSome then some p.1 else none)) := by
    unfold getAvailableReports
    simp [hsid, hdb]
  have hsr : getSessionReports db sessionId =
      Except.ok
        { agentReports :=
            agentTypeMapping.filterMap
              (fun p =>
                match row.reports p.2 with
                | some c => if c ≠ [] then some (p.1, c) else none
                | none => none)
          finalAnalysis := row.finalAnalysis
          recommendation := row.recommendation } := by
    unfold getSessionReports
    simp [hsid, hdb]
  refine ⟨?_, ?_, ?_⟩
  · refine ⟨_, havail, ?_⟩
    rw [List.mem_filterMap]
    exact ⟨(agentType, col), hmem, by simp [hempty]⟩
  · unfold getAgentReport
    simp [hsid, hagent, hcol, hdb, hempty]
  · refine ⟨_, hsr, ?_⟩
    rw [List.mem_map]
    rintro ⟨⟨a, c⟩, hpair, rfl⟩
    rw [List.mem_filterMap] at hpair
    obtain ⟨⟨a', col'⟩, hmem', heq⟩ := hpair
    have ha' : a' = a := by
      by_contra hne
      split at heq <;> simp_all
    subst ha'
    have hcol' : col' = col := by
      have h1 := lookup_eq_of_mem_nodup agentTypeMapping_keys_nodup hmem'
      dsimp only at h1 hlk
      exact Option.some.inj (h1.symm.trans hlk)
    subst hcol'
    rw [hempty] at heq
    simp at heq

/-- A row whose Market Analyst column holds the empty string. -/
def emptyStringRow : SessionRow :=
  { reports := fun col => if col = "market_analyst_report" then some [] else none,
    finalAnalysis := none, recommendation := none }

/-- A database holding exactly `demoSid`, whose Market Analyst report is the
empty string. -/
def emptyStringDb : Db := fun sid => if sid = demoSid then some emptyStringRow else none

theorem c10_disagreement_witness :
    (∃ l, getAvailableReports emptyStringDb demoSid = Except.ok l ∧
      "Market Analyst" ∈ l) ∧
    getAgentReport emptyStringDb demoSid "Market Analyst" =
      GetReportResult.noReport ∧
    (∃ resp, getSessionReports emptyStringDb demoSid = Except.ok resp ∧
      ¬ "Market Analyst" ∈ resp.agentReports.map Prod.fst) :=
  c10_empty_report_disagreement emptyStringDb demoSid "Market Analyst"
    "market_analyst_report" emptyStringRow (by decide) rfl
    (by simp [emptyStringDb]) rfl

/-! ## Retry executor lemmas (C3) -/

theorem retryGo_invocations_pos {α ε : Type} (base : ℚ)
    (op : Nat → AttemptOutcome α ε) (jitter : Nat → ℚ) (w : Bool) :
    ∀ rem attempt, 1 ≤ (retryGo base op jitter w attempt rem).invocations := by
  intro rem
  induction rem with
  | zero =>
    intro attempt
    unfold retryGo
    cases op attempt <;> simp
  | succ r ih =>
    intro attempt
    unfold retryGo
    cases op attempt <;> simp

theorem retryGo_invocations_le {α ε : Type} (base : ℚ)
    (op : Nat → AttemptOutcome α ε) (jitter : Nat → ℚ) (w : Bool) :
    ∀ rem attempt, (retryGo base op jitter w attempt rem).invocations ≤ rem + 1 := by
  intro rem
  induction rem with
  | zero =>
    intro attempt
    unfold retryGo
    cases op attempt <;> simp
  | succ r ih =>
    intro attempt
    unfold retryGo
    cases op attempt <;> simp
    have := ih (attempt + 1)
    omega

theorem retryGo_sleeps {α ε : Type} (base : ℚ)
    (op : Nat → AttemptOutcome α ε) (jitter : Nat → ℚ) (w : Bool) :
    ∀ rem attempt, (retryGo base op jitter w attempt rem).sleeps =
      (List.range ((retryGo base op jitter w attempt rem).invocations - 1)).map
        (fun k => min (base * 2 ^ (attempt + k) + jitter (attempt + k)) 30) := by
  intro rem
  induction rem with
  | zero =>
    intro attempt
    unfold retryGo
    cases op attempt <;> simp
  | succ r ih =>
    intro attempt
    unfold retryGo
    cases op attempt <;> simp
    have h1 := retryGo_invocations_pos base op jitter w r (attempt + 1)
    obtain ⟨m, hm⟩ : ∃ m, (retryGo base op jitter w (attempt + 1) r).invocations =
        m + 1 := ⟨_, (Nat.succ_pred_eq_of_pos h1).symm⟩
    rw [ih (attempt + 1), hm]
    simp only [Nat.add_sub_cancel, List.range_succ_eq_map, List.map_cons,
      List.map_map, Nat.add_zero]
    congr 1
    apply List.map_congr_left
    intro k _
    have he : attempt + 1 + k = attempt + (k + 1) := by omega
    simp [Function.comp_apply, Nat.succ_eq_add_one, he]

theorem retryGo_exhausted {α ε : Type} (base : ℚ)
    (op : Nat → AttemptOutcome α ε) (jitter : Nat → ℚ) (w : Bool) :
    ∀ rem attempt e, op (attempt + rem) = AttemptOutcome.retryable e →
      (∀ k, attempt ≤ k → k < attempt + rem →
        ∃ e', op k = AttemptOutcome.retryable e') →
      (retryGo base op jitter w attempt rem).outcome = RetryOutcome.exhausted e ∧
      (retryGo base op jitter w attempt rem).invocations = rem + 1 := by
  intro rem
  induction rem with
  | zero =>
    intro attempt e he _
    unfold retryGo
    rw [Nat.add_zero] at he
    rw [he]
    exact ⟨rfl, rfl⟩
  | succ r ih =>
    intro attempt e he hall
    obtain ⟨e0, he0⟩ := hall attempt (Nat.le_refl _) (by omega)
    unfold retryGo
    rw [he0]
    simp only
    have hrec := ih (attempt + 1) e (by rw [← he]; congr 1; omega)
      (fun k hk1 hk2 => hall k (by omega) (by omega))
    exact ⟨hrec.1, by rw [hrec.2]⟩

theorem retryGo_fatal {α ε : Type} (base : ℚ)
    (op : Nat → AttemptOutcome α ε) (jitter : Nat → ℚ) (w : Bool) :
    ∀ rem attempt j e, attempt ≤ j → j ≤ attempt + rem →
      op j = AttemptOutcome.fatal e →
      (∀ k, attempt ≤ k → k < j → ∃ e', op k = AttemptOutcome.retryable e') →
      (retryGo base op jitter w attempt rem).outcome =
        (if w then RetryOutcome.fatalWrapped e else RetryOutcome.fatalRaised e) ∧
      (retryGo base op jitter w attempt rem).invocations = j - attempt + 1 := by
  intro rem
  induction rem with
  | zero =>
    intro attempt j e h1 h2 he _
    obtain rfl : j = attempt := by omega
    unfold retryGo
    rw [he]
    simp
  | succ r ih =>
    intro attempt j e h1 h2 he hall
    rcases Nat.eq_or_lt_of_le h1 with rfl | hlt
    · unfold retryGo
      rw [he]
      simp
    · obtain ⟨e0, he0⟩ := hall attempt (Nat.le_refl _) hlt
      unfold retryGo
      rw [he0]
      simp only
      have hrec := ih (attempt + 1) j e (by omega) (by omega) he
        (fun k hk1 hk2 => hall k (by omega) hk2)
      refine ⟨hrec.1, ?_⟩
      rw [hrec.2]
      omega

/-- C3 (amended): a retried operation is invoked at most `maxRetries + 1`
times (not `maxRetries`); the sleep before retry `k` (0-based) is
`min(base * 2^k + jitter_k, 30)`; when every allowed attempt fails with a
retryable error the run ends in a `ConnectionError` wrapping the last
failure after exactly `maxRetries + 1` invocations; a non-retryable error
at attempt `j` stops the run at `j + 1` invocations, re-raised as itself by
`with_db_retry` and wrapped in `ConnectionError` by
`ConnectionFactory._retry_operation`. -/
theorem c3_retry_budget_and_backoff {α ε : Type} (maxRetries : Nat) (base : ℚ)
    (op : Nat → AttemptOutcome α ε) (jitter : Nat → ℚ) :
    (runWithDbRetry maxRetries base op jitter).invocations ≤ maxRetries + 1 ∧
    (runWithDbRetry maxRetries base op jitter).sleeps =
      (List.range ((runWithDbRetry maxRetries base op jitter).invocations - 1)).map
        (fun k => min (base * 2 ^ k + jitter k) 30) ∧
    (∀ e, op maxRetries = AttemptOutcome.retryable e →
      (∀ k, k < maxRetries → ∃ e', op k = AttemptOutcome.retryable e') →
      (runWithDbRetry maxRetries base op jitter).outcome =
        RetryOutcome.exhausted e ∧
      (runWithDbRetry maxRetries base op jitter).invocations = maxRetries + 1) ∧
    (∀ j e, j ≤ maxRetries → op j = AttemptOutcome.fatal e →
      (∀ k, k < j → ∃ e', op k = AttemptOutcome.retryable e') →
      (runWithDbRetry maxRetries base op jitter).outcome =
        RetryOutcome.fatalRaised e ∧
      (runWithDbRetry maxRetries base op jitter).invocations = j + 1) ∧
    (∀ j e, j ≤ 3 → op j = AttemptOutcome.fatal e →
      (∀ k, k < j → ∃ e', op k = AttemptOutcome.retryable e') →
      (runRetryOperation op jitter).outcome = RetryOutcome.fatalWrapped e ∧
      (runRetryOperation op jitter).invocations = j + 1) := by
  refine ⟨?_, ?_, ?_, ?_, ?_⟩
  · exact retryGo_invocations_le base op jitter false maxRetries 0
  · have h := retryGo_sleeps base op jitter false maxRetries 0
    simpa using h
  · intro e he hall
    exact retryGo_exhausted base op jitter false maxRetries 0 e (by simpa using he)
      (fun k hk1 hk2 => hall k (by omega))
  · intro j e hj he hall
    have h := retryGo_fatal base op jitter false maxRetries 0 j e (by omega)
      (by omega) he (fun k hk1 hk2 => hall k hk2)
    simpa using h
  · intro j e hj he hall
    have h := retryGo_fatal 1 op jitter true 3 0 j e (by omega)
      (by omega) he (fun k hk1 hk2 => hall k hk2)
    simpa [runRetryOperation] using h

theorem c3_backoff_witness :
    (runWithDbRetry 3 1
      (fun k => if k = 0 then AttemptOutcome.retryable () else AttemptOutcome.fatal ())
      (fun _ => 0) (α := Unit)).outcome = RetryOutcome.fatalRaised () ∧
    (runWithDbRetry 3 1
      (fun k => if k = 0 then AttemptOutcome.retryable () else AttemptOutcome.fatal ())
      (fun _ => 0) (α := Unit)).invocations = 2 :=
  (c3_retry_budget_and_backoff 3 1
    (fun k => if k = 0 then AttemptOutcome.retryable () else AttemptOutcome.fatal ())
    (fun _ => 0)).2.2.2.1 1 () (by omega) rfl
    (fun k hk => ⟨(), by interval_cases k; rfl⟩)

/-- C3 (counterexample): with the default `max_retries = 3` an operation
that always raises a retryable error is invoked 4 times — the claim's
"at most maxRetries times (default 3)" is off by one. -/
theorem c3_counterexample :
    (runWithDbRetry 3 1 (fun _ => AttemptOutcome.retryable ())
      (fun _ => 0) (α := Unit)).invocations = 4 ∧
    (runWithDbRetry 3 1 (fun _ => AttemptOutcome.retryable ())
      (fun _ => 0) (α := Unit)).sleeps = [1, 2, 4] := by
  constructor
  · decide
  · show (retryGo 1 (fun _ => AttemptOutcome.retryable ()) (fun _ => 0) false
      0 3 : RetryTrace Unit Unit).sleeps = [1, 2, 4]
    norm_num [retryGo]

/-! ## Migration runner lemmas (C6) -/

theorem migrationsList_find_history :
    migrationsList.find? (fun m => m.name == "create_migration_history_table") =
      some mig002 := by
  simp [migrationsList, List.find?, mig001, mig002]

theorem migrateUp_eval (h : String → String) (hist : MigHistory)
    (target : Option String) :
    migrateUp h hist target =
      migrateUpLoop h migrationsList
        (if migrationExists hist mig002.version then hist
         else recordMigration h hist mig002) target := by
  unfold migrateUp
  rw [migrationsList_find_history]

theorem recordMigration_other (h : String → String) (hist : MigHistory)
    (m : Migration) (v : String) (hv : ¬ v = m.version) :
    recordMigration h hist m v = hist v := by
  unfold recordMigration
  rw [if_neg hv]

theorem migrationExists_congr {hist hist' : MigHistory} (v : String)
    (he : hist' v = hist v) : migrationExists hist' v = migrationExists hist v := by
  unfold migrationExists
  rw [he]

theorem integrity_congr (h : String → String) {hist hist' : MigHistory}
    (m : Migration) (he : hist' m.version = hist m.version) :
    validateMigrationIntegrity h hist' m = validateMigrationIntegrity h hist m := by
  unfold validateMigrationIntegrity
  rw [he]

/-- The pre-loop bootstrap step changes the history only at version `002`. -/
theorem hist1_other (h : String → String) (hist : MigHistory) (v : String)
    (hv : ¬ v = mig002.version) :
    (if migrationExists hist mig002.version then hist
     else recordMigration h hist mig002) v = hist v := by
  split
  · rfl
  · exact recordMigration_other h hist mig002 v hv

/-- One loop step: the migration-history migration is skipped. -/
theorem muLoop_skip (h : String → String) (m : Migration) (rest : List Migration)
    (hist : MigHistory) (target : Option String)
    (hname : (m.name == "create_migration_history_table") = true) :
    migrateUpLoop h (m :: rest) hist target = migrateUpLoop h rest hist target := by
  simp only [migrateUpLoop, hname, if_true]

/-- One loop step: an applied migration failing its integrity check stops
the loop with failure. -/
theorem muLoop_fail (h : String → String) (m : Migration) (rest : List Migration)
    (hist : MigHistory) (target : Option String)
    (hname : (m.name == "create_migration_history_table") = false)
    (htb : targetBreak target m.version = false)
    (hex : migrationExists hist m.version = true)
    (hbad : validateMigrationIntegrity h hist m = false) :
    migrateUpLoop h (m :: rest) hist target = (false, hist) := by
  simp only [migrateUpLoop, hname, htb, hex, hbad]
  simp

/-- One loop step: an applied migration passing its integrity check is
skipped. -/
theorem muLoop_pass (h : String → String) (m : Migration) (rest : List Migration)
    (hist : MigHistory) (target : Option String)
    (hname : (m.name == "create_migration_history_table") = false)
    (htb : targetBreak target m.version = false)
    (hex : migrationExists hist m.version = true)
    (hgood : validateMigrationIntegrity h hist m = true) :
    migrateUpLoop h (m :: rest) hist target = migrateUpLoop h rest hist target := by
  simp only [migrateUpLoop, hname, htb, hex, hgood]
  simp

/-- One loop step: an unapplied migration is applied and recorded. -/
theorem muLoop_apply (h : String → String) (m : Migration) (rest : List Migration)
    (hist : MigHistory) (target : Option String)
    (hname : (m.name == "create_migration_history_table") = false)
    (htb : targetBreak target m.version = false)
    (hex : migrationExists hist m.version = false) :
    migrateUpLoop h (m :: rest) hist target =
      migrateUpLoop h rest (recordMigration h hist m) target := by
  simp only [migrateUpLoop, hname, htb, hex]
  simp

/-- C6 (amended): for the two ordinary migrations (001, 003) a checksum
mismatch between history and the in-code definition makes `migrate_up`
return failure without re-applying the drifted migration or applying any
later one (provided the target version does not cut the run short first);
the bootstrap migration 002 is exempt from the loop's integrity check;
`get_migration_status` lists every defined migration and reports
`integrity_ok = false` for any applied drifted migration. -/
theorem c6_migration_checksum_drift (h : String → String) (hist : MigHistory)
    (target : Option String) :
    (migrationExists hist mig001.version = true →
      validateMigrationIntegrity h hist mig001 = false →
      targetBreak target mig001.version = false →
      (migrateUp h hist target).1 = false ∧
      (migrateUp h hist target).2 mig001.version = hist mig001.version ∧
      (migrateUp h hist target).2 mig003.version = hist mig003.version) ∧
    (migrationExists hist mig003.version = true →
      validateMigrationIntegrity h hist mig003 = false →
      targetBreak target mig001.version = false →
      targetBreak target mig003.version = false →
      (migrateUp h hist target).1 = false ∧
      (migrateUp h hist target).2 mig003.version = hist mig003.version) ∧
    (∀ m ∈ migrationsList, migrationExists hist m.version = true →
      validateMigrationIntegrity h hist m = false →
      (getMigrationStatus h hist).map MigStatus.version = ["001", "002", "003"] ∧
      ∃ st ∈ getMigrationStatus h hist,
        st.version = m.version ∧ st.integrityOk = false) := by
  have hname1 : (mig001.name == "create_migration_history_table") = false := by decide
  have hname2 : (mig002.name == "create_migration_history_table") = true := by decide
  have hname3 : (mig003.name == "create_migration_history_table") = false := by decide
  have hv12 : ¬ mig001.version = mig002.version := by decide
  have hv32 : ¬ mig003.version = mig002.version := by decide
  have hv31 : ¬ mig003.version = mig001.version := by decide
  set hist1 := if migrationExists hist mig002.version then hist
    else recordMigration h hist mig002 with hh1
  have h1at : ∀ v, ¬ v = mig002.version → hist1 v = hist v := fun v hv =>
    hist1_other h hist v hv
  have hml : migrationsList = [mig001, mig002, mig003] := rfl
  refine ⟨?_, ?_, ?_⟩
  · intro hex hbad htb
    have e : migrateUp h hist target = (false, hist1) := by
      rw [migrateUp_eval, ← hh1, hml]
      exact muLoop_fail h mig001 _ hist1 target hname1 htb
        ((migrationExists_congr mig001.version (h1at _ hv12)).trans hex)
        ((integrity_congr h mig001 (h1at _ hv12)).trans hbad)
    rw [e]
    exact ⟨rfl, h1at _ hv12, h1at _ hv32⟩
  · intro hex3 hbad3 htb1 htb3
    rw [migrateUp_eval, ← hh1, hml]
    by_cases hex1 : migrationExists hist1 mig001.version
    · by_cases hint1 : validateMigrationIntegrity h hist1 mig001
      · rw [muLoop_pass h mig001 _ hist1 target hname1 htb1 hex1 hint1,
          muLoop_skip h mig002 _ hist1 target hname2,
          muLoop_fail h mig003 _ hist1 target hname3 htb3
            ((migrationExists_congr mig003.version (h1at _ hv32)).trans hex3)
            ((integrity_congr h mig003 (h1at _ hv32)).trans hbad3)]
        exact ⟨rfl, h1at _ hv32⟩
      · rw [muLoop_fail h mig001 _ hist1 target hname1 htb1 hex1
          (Bool.eq_false_iff.mpr hint1)]
        exact ⟨rfl, h1at _ hv32⟩
    · have h3 : recordMigration h hist1 mig001 mig003.version =
          hist mig003.version := by
        rw [recordMigration_other _ _ _ _ hv31]
        exact h1at _ hv32
      rw [muLoop_apply h mig001 _ hist1 target hname1 htb1
          (Bool.eq_false_iff.mpr hex1),
        muLoop_skip h mig002 _ _ target hname2,
        muLoop_fail h mig003 _ _ target hname3 htb3
          ((migrationExists_congr mig003.version h3).trans hex3)
          ((integrity_congr h mig003 h3).trans hbad3)]
      exact ⟨rfl, h3⟩
  · intro m hm hex hbad
    constructor
    · simp [getMigrationStatus, migrationsList, mig001, mig002, mig003]
    · refine ⟨_, List.mem_map_of_mem _ hm, rfl, ?_⟩
      simp only [hex, if_true, hbad]

/-- A history in which migration 001 is recorded with a checksum that does
not match its current in-code definition. -/
def histDrift1 : MigHistory := fun v => if v = "001" then some "bad" else none

theorem c6_drift_witness :
    (migrateUp (fun s => s) histDrift1 none).1 = false ∧
    (migrateUp (fun s => s) histDrift1 none).2 mig001.version =
      histDrift1 mig001.version ∧
    (migrateUp (fun s => s) histDrift1 none).2 mig003.version =
      histDrift1 mig003.version :=
  (c6_migration_checksum_drift (fun s => s) histDrift1 none).1
    (by decide) (by decide) (by decide)

/-- A history in which migrations 001 and 002 are recorded, 002 with a
checksum that does not match its current in-code definition. -/
def histDrift2 : MigHistory := fun v =>
  if v = "001" then some (migChecksum (fun s => s) mig001)
  else if v = "002" then some "drifted" else none

/-- C6 (counterexample): the history-table migration 002 is applied with a
drifted checksum, yet `migrate_up` reports success and carries on, applying
the later migration 003 — the claim's "for every migration" fails at 002. -/
theorem c6_counterexample :
    migrationExists histDrift2 mig002.version = true ∧
    validateMigrationIntegrity (fun s => s) histDrift2 mig002 = false ∧
    (migrateUp (fun s => s) histDrift2 none).1 = true ∧
    migrationExists ((migrateUp (fun s => s) histDrift2 none).2)
      mig003.version = true := by
  have h001 : histDrift2 mig001.version = some (migChecksum (fun s => s) mig001) := by
    unfold histDrift2
    rw [if_pos (by decide)]
  have hint1 : validateMigrationIntegrity (fun s => s) histDrift2 mig001 = true := by
    unfold validateMigrationIntegrity
    rw [h001]
    simp
  have hex1 : migrationExists histDrift2 mig001.version = true := by
    unfold migrationExists
    rw [h001]
    rfl
  have he : migrateUp (fun s => s) histDrift2 none =
      migrateUpLoop (fun s => s) [mig001, mig002, mig003] histDrift2 none := by
    rw [migrateUp_eval]
    rw [if_pos (by decide : migrationExists histDrift2 mig002.version = true)]
    rfl
  have hloop : migrateUpLoop (fun s => s) [mig001, mig002, mig003] histDrift2 none =
      (true, recordMigration (fun s => s) histDrift2 mig003) := by
    rw [muLoop_pass _ mig001 _ _ none (by decide) rfl hex1 hint1,
      muLoop_skip _ mig002 _ _ none (by decide),
      muLoop_apply _ mig003 _ _ none (by decide) rfl (by decide)]
    rfl
  refine ⟨by decide, by decide, ?_, ?_⟩
  · rw [he, hloop]
  · rw [he, hloop]
    simp [migrationExists, recordMigration]

/-! ## Chunk splitting lemmas (C8) -/

theorem splitChunksGo_bounded (maxSize : Nat) :
    ∀ (lines chunks : List (List Char)) (current : List Char),
      (∀ l ∈ lines, utf8Len l ≤ maxSize) →
      (∀ c ∈ chunks, utf8Len c ≤ maxSize) →
      utf8Len current ≤ maxSize →
      ∀ chunk ∈ splitChunksGo maxSize lines chunks current,
        utf8Len chunk ≤ maxSize := by
  intro lines
  induction lines with
  | nil =>
    intro chunks current _ hchunks hcur chunk hc
    unfold splitChunksGo at hc
    split at hc
    · exact hchunks chunk hc
    · rcases List.mem_append.mp hc with hc' | hc'
      · exact hchunks chunk hc'
      · simp only [List.mem_singleton] at hc'
        exact hc' ▸ hcur
  | cons line rest ih =>
    intro chunks current hlines hchunks hcur chunk hc
    have hline : utf8Len line ≤ maxSize := hlines line (List.mem_cons_self _ _)
    have hrest : ∀ l ∈ rest, utf8Len l ≤ maxSize :=
      fun l hl => hlines l (List.mem_cons_of_mem _ hl)
    unfold splitChunksGo at hc
    by_cases hnil : current = []
    · subst hnil
      simp only [eq_self_iff_true, if_true] at hc
      by_cases htest : maxSize < utf8Len line
      · omega
      · rw [if_neg htest] at hc
        exact ih chunks line hrest hchunks (by omega) chunk hc
    · simp only [if_neg hnil] at hc
      by_cases htest : maxSize < utf8Len (current ++ '\n' :: line)
      · rw [if_pos htest] at hc
        exact ih (chunks ++ [current]) line hrest
          (fun c hcm => by
            rcases List.mem_append.mp hcm with h' | h'
            · exact hchunks c h'
            · simp only [List.mem_singleton] at h'
              exact h' ▸ hcur)
          hline chunk hc
      · rw [if_neg htest] at hc
        exact ih chunks _ hrest hchunks (by omega) chunk hc

/-- C8 (amended): when every line of the text fits in `maxSize` UTF-8 bytes,
every chunk `split_large_content` returns fits in `maxSize` bytes (greedy
line packing); without that proviso the force-split path slices by
characters and carries the unsplit remainder whole into the next chunk, so
chunks can exceed `maxSize` bytes. -/
theorem c8_chunks_bounded_when_lines_fit (content : List Char) (maxSize : Nat)
    (hpos : 0 < maxSize)
    (hlines : ∀ l ∈ splitOnChar '\n' content, utf8Len l ≤ maxSize) :
    ∀ chunk ∈ splitLargeContent content maxSize, utf8Len chunk ≤ maxSize := by
  intro chunk hc
  unfold splitLargeContent at hc
  split at hc
  · simp only [List.mem_singleton] at hc
    subst hc
    assumption
  · exact splitChunksGo_bounded maxSize _ [] [] hlines (by simp)
      (by simp [utf8Len]) chunk hc

theorem c8_bounded_witness : utf8Len "ab".data ≤ 2 :=
  c8_chunks_bounded_when_lines_fit "ab\ncd".data 2 (by omega) (by decide)
    "ab".data (by decide)

/-- C8 (counterexample): `split_large_content("aaaa", 1)` returns the chunk
`"aaa"` of 3 bytes, exceeding `maxSize = 1`: the force-split at the
character (not byte) boundary keeps the whole remainder as one chunk. -/
theorem c8_counterexample :
    splitLargeContent "aaaa".data 1 = ["a".data, "aaa".data] ∧
    1 < utf8Len "aaa".data := by
  exact ⟨by decide, by decide⟩

/-! ## Compression lemmas (C7) -/

theorem collapseRuns_nil : collapseRuns [] = [] := by
  rw [collapseRuns]

theorem collapseRuns_cons (f : List Char) (t : List (List Char)) :
    collapseRuns (f :: t) =
      (f :: t.takeWhile (fun l => pyStrip l == pyStrip f)).take 3 ++
        (if t.dropWhile (fun l => pyStrip l == pyStrip f) ≠ [] ∧
            3 < (t.takeWhile (fun l => pyStrip l == pyStrip f)).length + 1 then
          [markerLine ((t.takeWhile (fun l => pyStrip l == pyStrip f)).length + 1 - 3)]
        else []) ++
        collapseRuns (t.dropWhile (fun l => pyStrip l == pyStrip f)) := by
  rw [collapseRuns]

/-- How `compress_content`'s loop behaves from the middle of a run: `s` is
the stripped text of the run's first line, `rc` how many repetitions have
been counted so far. -/
theorem compressLoop_run :
    ∀ (lines acc : List (List Char)) (s : List Char) (rc : Nat),
      compressLoop lines acc (some s) rc =
        acc ++ (lines.takeWhile (fun l => pyStrip l == s)).take (2 - rc) ++
          (if lines.dropWhile (fun l => pyStrip l == s) = [] then []
           else
             (if 2 < rc + (lines.takeWhile (fun l => pyStrip l == s)).length then
               [markerLine (rc + (lines.takeWhile (fun l => pyStrip l == s)).length - 2)]
             else []) ++
             collapseRuns (lines.dropWhile (fun l => pyStrip l == s))) := by
  intro lines
  induction lines with
  | nil => intro acc s rc; simp [compressLoop]
  | cons l ls ih =>
    intro acc s rc
    by_cases hmatch : pyStrip l = s
    · have htw : (l :: ls).takeWhile (fun x => pyStrip x == s) =
          l :: ls.takeWhile (fun x => pyStrip x == s) :=
        List.takeWhile_cons_of_pos (by simp [hmatch])
      have hdw : (l :: ls).dropWhile (fun x => pyStrip x == s) =
          ls.dropWhile (fun x => pyStrip x == s) :=
        List.dropWhile_cons_of_pos (by simp [hmatch])
      rw [htw, hdw]
      unfold compressLoop
      rw [if_pos (by rw [hmatch])]
      by_cases hrc : rc + 1 ≤ 2
      · rw [if_pos hrc, ih]
        have h2 : 2 - rc = (2 - (rc + 1)) + 1 := by omega
        have h3 : rc + 1 + (ls.takeWhile (fun x => pyStrip x == s)).length =
            rc + ((ls.takeWhile (fun x => pyStrip x == s)).length + 1) := by omega
        rw [h2, List.take_succ_cons, h3]
        simp [List.append_assoc, List.length_cons]
      · rw [if_neg hrc, ih]
        have h2 : 2 - rc = 0 := by omega
        have h2' : 2 - (rc + 1) = 0 := by omega
        have h3 : rc + 1 + (ls.takeWhile (fun x => pyStrip x == s)).length =
            rc + ((ls.takeWhile (fun x => pyStrip x == s)).length + 1) := by omega
        rw [h2, h2', h3]
        simp [List.length_cons]
    · have htw : (l :: ls).takeWhile (fun x => pyStrip x == s) = [] :=
        List.takeWhile_cons_of_neg (by simp [hmatch])
      have hdw : (l :: ls).dropWhile (fun x => pyStrip x == s) = l :: ls :=
        List.dropWhile_cons_of_neg (by simp [hmatch])
      rw [htw, hdw]
      unfold compressLoop
      rw [if_neg (by simp [hmatch])]
      rw [ih, collapseRuns_cons]
      simp only [List.take_nil, List.length_nil, Nat.add_zero, List.append_nil,
        Nat.zero_add]
      rw [if_neg (by simp : ¬(l :: ls = []))]
      have hcons : (l :: ls.takeWhile (fun x => pyStrip x == pyStrip l)).take 3 =
          l :: (ls.takeWhile (fun x => pyStrip x == pyStrip l)).take 2 :=
        List.take_succ_cons
      rw [hcons]
      by_cases hdw2 : ls.dropWhile (fun x => pyStrip x == pyStrip l) = []
      · rw [if_pos hdw2, hdw2, collapseRuns_nil]
        by_cases hrc2 : 2 < rc <;>
          simp [hrc2, List.append_assoc]
      · rw [if_neg hdw2]
        by_cases hbig : 2 < (ls.takeWhile (fun x => pyStrip x == pyStrip l)).length
        · have hval : (ls.takeWhile (fun x => pyStrip x == pyStrip l)).length - 2 =
              (ls.takeWhile (fun x => pyStrip x == pyStrip l)).length + 1 - 3 := by
            omega
          rw [if_pos hbig,
            if_pos (show ls.dropWhile (fun x => pyStrip x == pyStrip l) ≠ [] ∧
                3 < (ls.takeWhile (fun x => pyStrip x == pyStrip l)).length + 1 from
              ⟨hdw2, by omega⟩), hval]
          by_cases hrc2 : 2 < rc <;> simp [hrc2, List.append_assoc]
        · rw [if_neg hbig,
            if_neg (show ¬(ls.dropWhile (fun x => pyStrip x == pyStrip l) ≠ [] ∧
                3 < (ls.takeWhile (fun x => pyStrip x == pyStrip l)).length + 1) by
              rintro ⟨-, hb⟩; omega)]
          by_cases hrc2 : 2 < rc <;> simp [hrc2, List.append_assoc]

theorem compressLoop_eq_collapseRuns (lines : List (List Char)) :
    compressLoop lines [] none 0 = collapseRuns lines := by
  cases lines with
  | nil => rw [collapseRuns_nil]; rfl
  | cons l ls =>
    unfold compressLoop
    rw [if_neg (by simp)]
    rw [compressLoop_run, collapseRuns_cons]
    simp only [Nat.zero_add, List.nil_append, List.take_succ_cons]
    by_cases hdw2 : ls.dropWhile (fun x => pyStrip x == pyStrip l) = []
    · rw [if_pos hdw2, hdw2, collapseRuns_nil]
      simp
    · rw [if_neg hdw2]
      by_cases hbig : 2 < (ls.takeWhile (fun x => pyStrip x == pyStrip l)).length
      · have hval : (ls.takeWhile (fun x => pyStrip x == pyStrip l)).length - 2 =
            (ls.takeWhile (fun x => pyStrip x == pyStrip l)).length + 1 - 3 := by
          omega
        rw [if_pos hbig,
          if_pos (show ls.dropWhile (fun x => pyStrip x == pyStrip l) ≠ [] ∧
              3 < (ls.takeWhile (fun x => pyStrip x == pyStrip l)).length + 1 from
            ⟨hdw2, by omega⟩), hval]
        simp [List.append_assoc]
      · rw [if_neg hbig,
          if_neg (show ¬(ls.dropWhile (fun x => pyStrip x == pyStrip l) ≠ [] ∧
              3 < (ls.takeWhile (fun x => pyStrip x == pyStrip l)).length + 1) by
            rintro ⟨-, hb⟩; omega)]
        simp [List.append_assoc]

/-- C7 (amended): `compress_content` is the identity on content within the
1 MiB bound; on larger content it collapses each maximal run of lines with
equal stripped text to its first three lines, adds a
`... (repeated N-3 more times)` marker only when the run has at least four
lines and is followed by a different line (a trailing run gets no marker),
and finally truncates by character count with the trailing notice when the
result still exceeds the bound — exactly `specCompressContent`. -/
theorem c7_compress_collapses_runs (content : List Char) :
    compressContent content = specCompressContent content := by
  unfold compressContent specCompressContent
  rw [compressLoop_eq_collapseRuns]

theorem utf8Len_joinLines_replicate (l : List Char) :
    ∀ n, utf8Len (joinLines (List.replicate (n + 1) l)) =
      (n + 1) * utf8Len l + n := by
  intro n
  induction n with
  | zero => simp [joinLines, List.replicate]
  | succ m ih =>
    rw [show (m + 1 + 1) = (m + 2) from rfl, List.replicate_succ,
      List.replicate_succ]
    rw [show joinLines (l :: l :: List.replicate m l) =
        l ++ '\n' :: joinLines (l :: List.replicate m l) from rfl]
    rw [← List.replicate_succ, utf8Len_append, utf8Len_cons, ih]
    have : csize '\n' = 1 := by decide
    rw [this]
    ring

theorem splitOnChar_joinLines (ls : List (List Char)) (hne : ls ≠ [])
    (h : ∀ l ∈ ls, ∀ c ∈ l, ¬ c = '\n') :
    splitOnChar '\n' (joinLines ls) = ls := by
  induction ls with
  | nil => exact absurd rfl hne
  | cons l t ih =>
    cases t with
    | nil =>
      rw [show joinLines [l] = l from rfl]
      exact splitOnChar_no_sep (h l (List.mem_cons_self _ _))
    | cons l' t' =>
      rw [show joinLines (l :: l' :: t') = l ++ '\n' :: joinLines (l' :: t')
        from rfl]
      rw [splitOnChar_append _ (h l (List.mem_cons_self _ _))]
      rw [ih (by simp) (fun x hx => h x (List.mem_cons_of_mem _ hx))]

theorem takeWhile_replicate_pos {p : List Char → Bool} {x : List Char}
    (h : p x = true) (n : Nat) :
    (List.replicate n x).takeWhile p = List.replicate n x := by
  induction n with
  | zero => rfl
  | succ m ih => rw [List.replicate_succ, List.takeWhile_cons_of_pos h, ih]

theorem dropWhile_replicate_pos {p : List Char → Bool} {x : List Char}
    (h : p x = true) (n : Nat) :
    (List.replicate n x).dropWhile p = [] := by
  induction n with
  | zero => rfl
  | succ m ih => rw [List.replicate_succ, List.dropWhile_cons_of_pos h, ih]

/-- A run of `n + 3` identical lines collapses to its first three lines,
with no marker (the run ends the input). -/
theorem collapseRuns_replicate (l : List Char) (n : Nat) :
    collapseRuns (List.replicate (n + 3) l) = [l, l, l] := by
  rw [List.replicate_succ, collapseRuns_cons]
  have hp : (fun x => pyStrip x == pyStrip l) l = true := by simp
  rw [@takeWhile_replicate_pos (fun x => pyStrip x == pyStrip l) l hp (n + 2),
    @dropWhile_replicate_pos (fun x => pyStrip x == pyStrip l) l hp (n + 2),
    collapseRuns_nil]
  rw [← List.replicate_succ, List.take_replicate]
  simp [List.replicate]

/-- The repeated line of the C7 counterexample: one hundred letters `a`. -/
def lineA : List Char := List.replicate 100 'a'

/-- The C7 counterexample input: 10400 copies of `lineA` joined by
newlines — 1050399 UTF-8 bytes, over the 1 MiB bound. -/
def bigRepeat : List Char := joinLines (List.replicate 10400 lineA)

theorem utf8Len_lineA : utf8Len lineA = 100 := by
  rw [lineA, utf8Len_replicate, (by decide : csize 'a' = 1)]

theorem utf8Len_bigRepeat : utf8Len bigRepeat = 1050399 := by
  rw [bigRepeat, show (10400 : Nat) = 10399 + 1 from rfl,
    utf8Len_joinLines_replicate, utf8Len_lineA]

theorem replicate_ne_nil_of_pos {α : Type} {x : α} {n : Nat} (h : 0 < n) :
    List.replicate n x ≠ [] := by
  intro he
  have hl := congrArg List.length he
  rw [List.length_replicate] at hl
  simp at hl
  omega

theorem lineA_no_newline : ∀ c ∈ lineA, ¬ c = '\n' := by
  intro c hc
  rw [lineA, List.mem_replicate] at hc
  rw [hc.2]
  decide

/-- C7 (counterexample): on this oversized input — a single run of 10400
identical lines — `compress_content` keeps three copies of the line and
emits no `(repeated N more times)` marker, while the claim promises exactly
two copies followed by a marker. -/
theorem c7_counterexample :
    MAX_REPORT_SIZE < utf8Len bigRepeat ∧
    compressContent bigRepeat = lineA ++ '\n' :: lineA ++ '\n' :: lineA ∧
    splitOnChar '\n' (compressContent bigRepeat) = [lineA, lineA, lineA] := by
  have hbig : MAX_REPORT_SIZE < utf8Len bigRepeat := by
    rw [utf8Len_bigRepeat, MAX_REPORT_SIZE]
    omega
  have hsplit : splitOnChar '\n' bigRepeat = List.replicate 10400 lineA := by
    rw [bigRepeat]
    exact splitOnChar_joinLines _ (replicate_ne_nil_of_pos (by omega))
      (fun l hl => by rw [List.eq_of_mem_replicate hl]; exact lineA_no_newline)
  have hjoin3 : joinLines [lineA, lineA, lineA] =
      lineA ++ '\n' :: lineA ++ '\n' :: lineA := rfl
  have hsmall : utf8Len (lineA ++ '\n' :: lineA ++ '\n' :: lineA) = 302 := by
    rw [show lineA ++ '\n' :: lineA ++ '\n' :: lineA =
      joinLines [lineA, lineA, lineA] from rfl]
    rw [show ([lineA, lineA, lineA] : List (List Char)) =
      List.replicate (2 + 1) lineA from rfl]
    rw [utf8Len_joinLines_replicate, utf8Len_lineA]
  have hcomp : compressContent bigRepeat =
      lineA ++ '\n' :: lineA ++ '\n' :: lineA := by
    unfold compressContent
    rw [if_neg (by omega)]
    rw [compressLoop_eq_collapseRuns, hsplit,
      show (10400 : Nat) = 10397 + 3 from rfl, collapseRuns_replicate, hjoin3]
    rw [if_neg (by rw [hsmall, MAX_REPORT_SIZE]; omega)]
  refine ⟨hbig, hcomp, ?_⟩
  rw [hcomp]
  rw [show lineA ++ '\n' :: lineA ++ '\n' :: lineA =
    joinLines [lineA, lineA, lineA] from rfl]
  exact splitOnChar_joinLines _ (by simp)
    (fun l hl => by
      have : l = lineA := by
        simp only [List.mem_cons, List.not_mem_nil, or_false] at hl
        rcases hl with rfl | rfl | rfl <;> rfl
      rw [this]
      exact lineA_no_newline)

/-! ## Sanitization lemmas (C1) -/

theorem mem_removeNulls {l : List Char} {c : Char} (h : c ∈ removeNulls l) :
    c ∈ l ∧ ¬ c = nulChar := by
  unfold removeNulls at h
  have := List.mem_filter.mp h
  refine ⟨this.1, ?_⟩
  have h2 := this.2
  simp only [Bool.not_eq_true'] at h2
  simpa using h2

theorem mem_escChar {d c : Char} (h : c ∈ escChar d) :
    c = d ∨ c ∈ "&amp;&lt;&gt;".data := by
  unfold escChar at h
  split_ifs at h <;> simp_all <;> tauto

theorem mem_htmlEscape {l : List Char} {c : Char} (h : c ∈ htmlEscape l) :
    c ∈ l ∨ c ∈ "&amp;&lt;&gt;".data := by
  unfold htmlEscape at h
  obtain ⟨d, hd, hc⟩ := List.mem_flatMap.mp h
  rcases mem_escChar hc with rfl | hc'
  · exact Or.inl hd
  · exact Or.inr hc'

theorem mem_afterLastNewline {l : List Char} {c : Char}
    (h : c ∈ afterLastNewline l) : c ∈ l := by
  unfold afterLastNewline at h
  rw [List.mem_reverse] at h
  have := (List.takeWhile_sublist (l := l.reverse)
    (p := fun c => !(c == '\n'))).mem h
  exact List.mem_reverse.mp this

theorem mem_flushRun {l : List Char} {c : Char} (h : c ∈ flushRun l) :
    c ∈ l ∨ c = '\n' := by
  unfold flushRun at h
  split at h
  · rcases List.mem_append.mp h with h' | h'
    · exact Or.inl ((List.takeWhile_sublist _).mem h')
    · rcases List.mem_cons.mp h' with rfl | h''
      · exact Or.inr rfl
      · rcases List.mem_cons.mp h'' with rfl | h'''
        · exact Or.inr rfl
        · exact Or.inl (mem_afterLastNewline h''')
  · exact Or.inl h

theorem mem_collapseNLAux :
    ∀ (l runAcc : List Char) (c : Char), c ∈ collapseNLAux runAcc l →
      c ∈ runAcc ∨ c ∈ l ∨ c = '\n' := by
  intro l
  induction l with
  | nil =>
    intro runAcc c h
    unfold collapseNLAux at h
    rcases mem_flushRun h with h' | h'
    · exact Or.inl h'
    · exact Or.inr (Or.inr h')
  | cons d rest ih =>
    intro runAcc c h
    unfold collapseNLAux at h
    split at h
    · rcases ih (runAcc ++ [d]) c h with h' | h' | h'
      · rcases List.mem_append.mp h' with h'' | h''
        · exact Or.inl h''
        · simp only [List.mem_singleton] at h''
          exact Or.inr (Or.inl (h'' ▸ List.mem_cons_self d rest))
      · exact Or.inr (Or.inl (List.mem_cons_of_mem _ h'))
      · exact Or.inr (Or.inr h')
    · rcases List.mem_append.mp h with h' | h'
      · rcases mem_flushRun h' with h'' | h''
        · exact Or.inl h''
        · exact Or.inr (Or.inr h'')
      · rcases List.mem_cons.mp h' with rfl | h''
        · exact Or.inr (Or.inl (List.mem_cons_self _ _))
        · rcases ih [] c h'' with h3 | h3 | h3
          · simp at h3
          · exact Or.inr (Or.inl (List.mem_cons_of_mem _ h3))
          · exact Or.inr (Or.inr h3)

theorem mem_collapseNewlines {l : List Char} {c : Char}
    (h : c ∈ collapseNewlines l) : c ∈ l ∨ c = '\n' := by
  unfold collapseNewlines at h
  rcases mem_collapseNLAux l [] c h with h' | h' | h'
  · simp at h'
  · exact Or.inl h'
  · exact Or.inr h'

theorem mem_normSpacesAux :
    ∀ (l : List Char) (b : Bool) (c : Char), c ∈ normSpacesAux b l →
      c ∈ l ∨ c = ' ' := by
  intro l
  induction l with
  | nil => intro b c h; simp [normSpacesAux] at h
  | cons d rest ih =>
    intro b c h
    unfold normSpacesAux at h
    split at h
    · split at h
      · rcases ih true c h with h' | h'
        · exact Or.inl (List.mem_cons_of_mem _ h')
        · exact Or.inr h'
      · rcases List.mem_cons.mp h with rfl | h'
        · exact Or.inr rfl
        · rcases ih true c h' with h'' | h''
          · exact Or.inl (List.mem_cons_of_mem _ h'')
          · exact Or.inr h''
    · rcases List.mem_cons.mp h with rfl | h'
      · exact Or.inl (List.mem_cons_self _ _)
      · rcases ih false c h' with h'' | h''
        · exact Or.inl (List.mem_cons_of_mem _ h'')
        · exact Or.inr h''

/-- The sanitizer's output never holds a NUL byte: NULs are removed first
and every later stage only introduces newlines, spaces or escape text. -/
theorem sanitizeContent_no_nul (content : List Char) :
    ∀ c ∈ sanitizeContent content, ¬ c = nulChar := by
  intro c hc
  unfold sanitizeContent at hc
  have h1 := mem_pyStrip hc
  rcases mem_normSpacesAux _ false c h1 with h2 | rfl
  · rcases mem_collapseNewlines h2 with h3 | rfl
    · rcases mem_htmlEscape h3 with h4 | h4
      · exact (mem_removeNulls h4).2
      · intro he
        subst he
        revert h4
        decide
    · decide
  · decide

theorem markerLine_no_nul (n : Nat) : ∀ c ∈ markerLine n, ¬ c = nulChar := by
  intro c hc
  unfold markerLine at hc
  rcases List.mem_append.mp hc with hc' | hc'
  · rcases List.mem_append.mp hc' with hc'' | hc''
    · intro he
      subst he
      revert hc''
      decide
    · have := natStr_all_digits n c hc''
      exact digit_ne_of_code this (by decide)
  · intro he
    subst he
    revert hc'
    decide

theorem truncNote_no_nul : ∀ c ∈ truncNote, ¬ c = nulChar := by decide

theorem mem_joinLines {ls : List (List Char)} {c : Char} (h : c ∈ joinLines ls) :
    c = '\n' ∨ ∃ l ∈ ls, c ∈ l := by
  induction ls with
  | nil => simp [joinLines] at h
  | cons l t ih =>
    cases t with
    | nil =>
      rw [show joinLines [l] = l from rfl] at h
      exact Or.inr ⟨l, List.mem_cons_self _ _, h⟩
    | cons l' t' =>
      rw [show joinLines (l :: l' :: t') = l ++ '\n' :: joinLines (l' :: t')
        from rfl] at h
      rcases List.mem_append.mp h with h' | h'
      · exact Or.inr ⟨l, List.mem_cons_self _ _, h'⟩
      · rcases List.mem_cons.mp h' with rfl | h''
        · exact Or.inl rfl
        · rcases ih h'' with h3 | ⟨x, hx, hcx⟩
          · exact Or.inl h3
          · exact Or.inr ⟨x, List.mem_cons_of_mem _ hx, hcx⟩

theorem mem_compressLoop :
    ∀ (lines acc : List (List Char)) (prev : Option (List Char)) (rc : Nat)
      (piece : List Char), piece ∈ compressLoop lines acc prev rc →
      piece ∈ acc ∨ piece ∈ lines ∨ ∃ n, piece = markerLine n := by
  intro lines
  induction lines with
  | nil =>
    intro acc prev rc piece h
    unfold compressLoop at h
    exact Or.inl h
  | cons line rest ih =>
    intro acc prev rc piece h
    unfold compressLoop at h
    split at h
    · split at h
      · rcases ih _ _ _ piece h with h' | h' | h'
        · rcases List.mem_append.mp h' with h'' | h''
          · exact Or.inl h''
          · simp only [List.mem_singleton] at h''
            exact Or.inr (Or.inl (h'' ▸ List.mem_cons_self _ _))
        · exact Or.inr (Or.inl (List.mem_cons_of_mem _ h'))
        · exact Or.inr (Or.inr h')
      · rcases ih _ _ _ piece h with h' | h' | h'
        · exact Or.inl h'
        · exact Or.inr (Or.inl (List.mem_cons_of_mem _ h'))
        · exact Or.inr (Or.inr h')
    · rcases ih _ _ _ piece h with h' | h' | h'
      · rcases List.mem_append.mp h' with h'' | h''
        · split at h''
          · rcases List.mem_append.mp h'' with h3 | h3
            · exact Or.inl h3
            · simp only [List.mem_singleton] at h3
              exact Or.inr (Or.inr ⟨_, h3⟩)
          · exact Or.inl h''
        · simp only [List.mem_singleton] at h''
          exact Or.inr (Or.inl (h'' ▸ List.mem_cons_self _ _))
      · exact Or.inr (Or.inl (List.mem_cons_of_mem _ h'))
      · exact Or.inr (Or.inr h')

/-- `compress_content` introduces no NUL byte. -/
theorem compressContent_no_nul {l : List Char}
    (hl : ∀ c ∈ l, ¬ c = nulChar) :
    ∀ c ∈ compressContent l, ¬ c = nulChar := by
  intro c hc
  unfold compressContent at hc
  split at hc
  · exact hl c hc
  · simp only [] at hc
    have hjoin : ∀ d ∈ joinLines (compressLoop (splitOnChar '\n' l) [] none 0),
        ¬ d = nulChar := by
      intro d hd
      rcases mem_joinLines hd with rfl | ⟨piece, hp, hdp⟩
      · decide
      · rcases mem_compressLoop _ _ _ _ piece hp with h' | h' | ⟨n, rfl⟩
        · simp at h'
        · exact hl d (mem_of_mem_splitOnChar h' hdp)
        · exact markerLine_no_nul n d hdp
    split at hc
    · rcases List.mem_append.mp hc with h' | h'
      · exact hjoin c ((List.take_sublist _ _).mem h')
      · exact truncNote_no_nul c h'
    · exact hjoin c hc

/-- C1 (amended): every report content accepted by the validation and
sanitization path of `save_agent_report` (and every final analysis accepted
by `save_final_analysis`) is stored with no NUL byte in it. -/
theorem c1_stored_no_nul_bytes (dbHas : List Char → Bool)
    (sessionId : List Char) (agentType : String)
    (content rec stored : List Char) :
    (saveAgentReportSync dbHas sessionId agentType content =
        SaveResult.saved stored → ∀ c ∈ stored, ¬ c = nulChar) ∧
    (saveFinalAnalysisSync dbHas sessionId content rec =
        SaveResult.saved stored → ∀ c ∈ stored, ¬ c = nulChar) := by
  have hcore : ∀ sanitized : List Char,
      (∀ c ∈ sanitized, ¬ c = nulChar) →
      ∀ c ∈ (if 1024 * 1024 < utf8Len sanitized then compressContent sanitized
             else sanitized), ¬ c = nulChar := by
    intro sanitized hs
    split
    · exact compressContent_no_nul hs
    · exact hs
  constructor
  · intro h
    unfold saveAgentReportSync at h
    split at h
    · exact absurd h (by simp)
    split at h
    · exact absurd h (by simp)
    split at h
    · exact absurd h (by simp)
    rename_i s heq
    simp only [] at h
    split at h
    · obtain rfl := SaveResult.saved.inj h
      have hsan : s = sanitizeContent content := by
        unfold validateReportContent at heq
        split_ifs at heq
        exact (Option.some.inj heq).symm
      exact hcore s (hsan ▸ sanitizeContent_no_nul content)
    · exact absurd h (by simp)
  · intro h
    unfold saveFinalAnalysisSync at h
    split at h
    · exact absurd h (by simp)
    split at h
    · exact absurd h (by simp)
    rename_i s heq
    split at h
    · exact absurd h (by simp)
    simp only [] at h
    split at h
    · obtain rfl := SaveResult.saved.inj h
      have hsan : s = sanitizeContent content := by
        unfold validateReportContent at heq
        split_ifs at heq
        exact (Option.some.inj heq).symm
      exact hcore s (hsan ▸ sanitizeContent_no_nul content)
    · exact absurd h (by simp)

theorem c1_no_nul_witness :
    ¬ nulChar ∈ sanitizeContent "a valid report body".data := fun h =>
  (c1_stored_no_nul_bytes (fun _ => true) demoSid "Market Analyst"
      "a valid report body".data "BUY".data
      (sanitizeContent "a valid report body".data)).1
    (by decide) nulChar h rfl

/-! ## The C1 counterexample: an accepted content stored empty, and an
accepted content stored over the 1 MiB bound. -/

/-- 300000 euro signs: 900000 UTF-8 bytes. -/
def euroBlock : List Char := List.replicate 300000 '€'

/-- The five characters `html.escape` turns one `&` into. -/
def ampChunk : List Char := "&amp;".data

/-- 100000 escaped ampersands: 500000 UTF-8 bytes. -/
def ampBlock : List Char := (List.replicate 100000 ampChunk).flatten

/-- An accepted input of exactly 1000000 UTF-8 bytes whose sanitized form
has 1400000 bytes. -/
def c1BigContent : List Char :=
  List.replicate 300000 '€' ++ List.replicate 100000 '&'

/-- What `save_agent_report` actually stores for `c1BigContent`:
1400052 UTF-8 bytes. -/
def c1BigStored : List Char := euroBlock ++ ampBlock ++ truncNote

theorem mem_flatten_replicate {x : List Char} {c : Char} :
    ∀ n, c ∈ (List.replicate n x).flatten → c ∈ x := by
  intro n
  induction n with
  | zero => intro h; simp [List.replicate] at h
  | succ m ih =>
    intro h
    rw [List.replicate_succ] at h
    rcases List.mem_append.mp h with h' | h'
    · exact h'
    · exact ih h'

theorem utf8Len_flatten_replicate (x : List Char) :
    ∀ n, utf8Len (List.replicate n x).flatten = n * utf8Len x := by
  intro n
  induction n with
  | zero => simp [List.replicate, utf8Len]
  | succ m ih =>
    rw [List.replicate_succ, show ((x :: List.replicate m x).flatten) =
      x ++ (List.replicate m x).flatten from rfl, utf8Len_append, ih]
    ring

theorem length_flatten_replicate (x : List Char) :
    ∀ n, (List.replicate n x).flatten.length = n * x.length := by
  intro n
  induction n with
  | zero => simp [List.replicate]
  | succ m ih =>
    rw [List.replicate_succ, show ((x :: List.replicate m x).flatten) =
      x ++ (List.replicate m x).flatten from rfl, List.length_append, ih]
    ring

theorem flatMap_replicate_escChar (c : Char) :
    ∀ n, (List.replicate n c).flatMap escChar =
      (List.replicate n (escChar c)).flatten := by
  intro n
  induction n with
  | zero => rfl
  | succ m ih =>
    rw [List.replicate_succ, List.replicate_succ]
    rw [show ((c :: List.replicate m c).flatMap escChar) =
      escChar c ++ (List.replicate m c).flatMap escChar from rfl, ih]
    rfl

theorem flatten_replicate_singleton (c : Char) :
    ∀ n, (List.replicate n ([c] : List Char)).flatten = List.replicate n c := by
  intro n
  induction n with
  | zero => rfl
  | succ m ih =>
    rw [List.replicate_succ, show (([c] :: List.replicate m [c]).flatten) =
      [c] ++ (List.replicate m [c]).flatten from rfl, ih]
    rfl

/-- Every character of the sanitized big content. -/
theorem c1Big_sanitized_chars :
    ∀ c ∈ euroBlock ++ ampBlock, c = '€' ∨ c ∈ ampChunk := by
  intro c hc
  rcases List.mem_append.mp hc with h | h
  · exact Or.inl (List.eq_of_mem_replicate h)
  · exact Or.inr (mem_flatten_replicate _ h)

theorem c1Big_sanitized_no_space :
    ∀ c ∈ euroBlock ++ ampBlock, isPySpace c = false := by
  intro c hc
  rcases c1Big_sanitized_chars c hc with rfl | h
  · decide
  · rw [show ampChunk = ['&', 'a', 'm', 'p', ';'] from rfl] at h
    simp only [List.mem_cons, List.not_mem_nil, or_false] at h
    rcases h with rfl | rfl | rfl | rfl | rfl <;> decide

theorem collapseNLAux_no_space :
    ∀ l : List Char, (∀ c ∈ l, isPySpace c = false) →
      collapseNLAux [] l = l := by
  intro l
  induction l with
  | nil => intro _; rfl
  | cons c rest ih =>
    intro h
    unfold collapseNLAux
    rw [if_neg (by simp [h c (List.mem_cons_self _ _)])]
    rw [ih (fun d hd => h d (List.mem_cons_of_mem _ hd))]
    rfl

theorem normSpacesAux_no_space :
    ∀ l : List Char, (∀ c ∈ l, isSpaceTab c = false) →
      normSpacesAux false l = l := by
  intro l
  induction l with
  | nil => intro _; rfl
  | cons c rest ih =>
    intro h
    unfold normSpacesAux
    rw [if_neg (by simp [h c (List.mem_cons_self _ _)])]
    rw [ih (fun d hd => h d (List.mem_cons_of_mem _ hd))]

theorem isSpaceTab_of_isPySpace {c : Char} (h : isPySpace c = false) :
    isSpaceTab c = false := by
  unfold isPySpace at h
  unfold isSpaceTab
  rcases Bool.or_eq_false_iff.mp h with ⟨h1, -⟩
  rcases Bool.or_eq_false_iff.mp h1 with ⟨h2, -⟩
  rcases Bool.or_eq_false_iff.mp h2 with ⟨h3, -⟩
  rcases Bool.or_eq_false_iff.mp h3 with ⟨h4, h5⟩
  rcases Bool.or_eq_false_iff.mp h4 with ⟨h6, h7⟩
  simp_all

theorem newline_of_isPySpace {c : Char} (h : isPySpace c = false) : ¬ c = '\n' := by
  rintro rfl
  exact absurd h (by decide)

theorem c1Big_removeNulls : removeNulls c1BigContent = c1BigContent := by
  unfold removeNulls c1BigContent
  rw [List.filter_append]
  rw [List.filter_replicate, List.filter_replicate]
  rw [if_pos (by decide), if_pos (by decide)]

theorem c1Big_htmlEscape : htmlEscape c1BigContent = euroBlock ++ ampBlock := by
  unfold htmlEscape c1BigContent
  rw [List.flatMap_append, flatMap_replicate_escChar, flatMap_replicate_escChar]
  rw [show escChar '€' = ['€'] from by decide,
    show escChar '&' = ampChunk from by decide]
  rw [flatten_replicate_singleton]
  rfl

theorem c1Big_sanitize : sanitizeContent c1BigContent = euroBlock ++ ampBlock := by
  unfold sanitizeContent
  rw [c1Big_removeNulls, c1Big_htmlEscape]
  rw [show collapseNewlines (euroBlock ++ ampBlock) = collapseNLAux []
    (euroBlock ++ ampBlock) from rfl]
  rw [collapseNLAux_no_space _ c1Big_sanitized_no_space]
  rw [show normalizeSpaces (euroBlock ++ ampBlock) = normSpacesAux false
    (euroBlock ++ ampBlock) from rfl]
  rw [normSpacesAux_no_space _
    (fun c hc => isSpaceTab_of_isPySpace (c1Big_sanitized_no_space c hc))]
  exact pyStrip_eq_self c1Big_sanitized_no_space

theorem c1BigContent_no_space : ∀ c ∈ c1BigContent, isPySpace c = false := by
  intro c hc
  unfold c1BigContent at hc
  rcases List.mem_append.mp hc with h | h
  · rw [List.eq_of_mem_replicate h]; decide
  · rw [List.eq_of_mem_replicate h]; decide

theorem utf8Len_c1Big : utf8Len c1BigContent = 1000000 := by
  unfold c1BigContent
  rw [utf8Len_append, utf8Len_replicate, utf8Len_replicate,
    (by decide : csize '€' = 3), (by decide : csize '&' = 1)]

theorem length_c1Big : c1BigContent.length = 400000 := by
  unfold c1BigContent
  rw [List.length_append, List.length_replicate, List.length_replicate]

theorem utf8Len_sanitizedBig : utf8Len (euroBlock ++ ampBlock) = 1400000 := by
  unfold euroBlock ampBlock
  rw [utf8Len_append, utf8Len_replicate, utf8Len_flatten_replicate,
    (by decide : csize '€' = 3), (by decide : utf8Len ampChunk = 5)]

theorem length_sanitizedBig : (euroBlock ++ ampBlock).length = 800000 := by
  unfold euroBlock ampBlock
  rw [List.length_append, List.length_replicate, length_flatten_replicate,
    (by decide : ampChunk.length = 5)]

theorem validate_accepts {x : List Char} (h1 : ¬ pyStrip x = [])
    (h2 : ¬ x.length < MIN_REPORT_SIZE) (h3 : ¬ MAX_REPORT_SIZE < utf8Len x) :
    validateReportContent x = some (sanitizeContent x) := by
  unfold validateReportContent
  rw [if_neg h1, if_neg h2, if_neg h3]

theorem c1Big_validate :
    validateReportContent c1BigContent = some (euroBlock ++ ampBlock) := by
  rw [validate_accepts, c1Big_sanitize]
  · rw [pyStrip_eq_self c1BigContent_no_space]
    apply List.ne_nil_of_length_pos
    rw [length_c1Big]
    omega
  · rw [length_c1Big, MIN_REPORT_SIZE]
    omega
  · rw [utf8Len_c1Big, MAX_REPORT_SIZE]
    omega

/-- `compress_content` on oversized content that is one single line (no
newline) and still too large after the loop, yet with character count
within the truncation cut: the whole line survives the character-based
truncation, and only the notice is appended. -/
theorem compress_single_line_oversize {x : List Char}
    (hnl : ∀ c ∈ x, ¬ c = '\n') (hbig : MAX_REPORT_SIZE < utf8Len x)
    (hlen : x.length ≤ MAX_REPORT_SIZE - 100) :
    compressContent x = x ++ truncNote := by
  unfold compressContent
  rw [if_neg (by omega), compressLoop_eq_collapseRuns,
    splitOnChar_no_sep hnl, collapseRuns_cons]
  rw [show (List.takeWhile (fun l => pyStrip l == pyStrip x) ([] : List (List Char)))
    = [] from rfl]
  rw [show (List.dropWhile (fun l => pyStrip l == pyStrip x) ([] : List (List Char)))
    = [] from rfl]
  rw [if_neg (show ¬(([] : List (List Char)) ≠ [] ∧
      3 < ([] : List (List Char)).length + 1) by simp), collapseRuns_nil]
  rw [show ((List.take 3 [x] ++ ([] : List (List Char))) ++
      ([] : List (List Char))) = [x] by simp]
  rw [show joinLines [x] = x from rfl, if_pos hbig,
    List.take_of_length_le hlen]

theorem c1Big_compress :
    compressContent (euroBlock ++ ampBlock) = c1BigStored := by
  rw [compress_single_line_oversize
    (fun c hc => newline_of_isPySpace (c1Big_sanitized_no_space c hc))
    (by rw [utf8Len_sanitizedBig, MAX_REPORT_SIZE]; omega)
    (by rw [length_sanitizedBig, MAX_REPORT_SIZE]; omega)]
  rw [c1BigStored, List.append_assoc]

/-- The save path of `save_agent_report_sync` on a valid session id, a
recognized agent type, content whose sanitized form is oversized, and a
database holding the row: the compressed sanitized content is stored. -/
theorem save_agent_big_path {dbHas : List Char → Bool} {sid : List Char}
    {agent col : String} {content s : List Char}
    (hsid : validateSessionId sid = true)
    (hcol : getAgentColumn agent = some col)
    (hval : validateReportContent content = some s)
    (hbig : 1024 * 1024 < utf8Len s)
    (hdb : dbHas sid = true) :
    saveAgentReportSync dbHas sid agent content
      = SaveResult.saved (compressContent s) := by
  simp only [saveAgentReportSync, hsid, hcol, hval, hdb, if_pos hbig,
    Bool.not_true, Bool.false_eq_true, if_false, if_true]

/-- C1, counterexample: with a database holding the demo session row, ten
NUL characters pass validation (they are not Python whitespace, the length
is exactly the minimum, the size is 10 bytes) and sanitization strips them
all, so the stored content is the empty string; and the 400000-character
input of 300000 euro signs followed by 100000 ampersands is 1000000 UTF-8
bytes, passes validation, HTML-escapes to 1400000 bytes, survives the
run-collapsing pass as a single line, and the character-count truncation
keeps all 800000 characters, so the stored content is 1400100 UTF-8
bytes — over the 1 MiB bound. -/
theorem c1_counterexample :
    saveAgentReportSync (fun _ => true) demoSid "Market Analyst"
        (List.replicate 10 nulChar) = SaveResult.saved []
    ∧ saveAgentReportSync (fun _ => true) demoSid "Market Analyst"
        c1BigContent = SaveResult.saved c1BigStored
    ∧ MAX_REPORT_SIZE < utf8Len c1BigStored := by
  refine ⟨by decide, ?_, ?_⟩
  · rw [save_agent_big_path (by decide)
      (show getAgentColumn "Market Analyst" = some "market_analyst_report"
        from rfl)
      c1Big_validate
      (by rw [utf8Len_sanitizedBig]; omega) rfl]
    rw [c1Big_compress]
  · rw [c1BigStored, utf8Len_append, utf8Len_sanitizedBig, MAX_REPORT_SIZE]
    omega
